import Mathlib

/-!
Verification of the clean-elt rule-evaluation engine and batch load
orchestrator against its specification.

The Python sources are shallowly embedded:

* `src/src/validators/business_rules.py` (`BusinessRulesValidator`):
  rule loading, severity sorting, pre-compilation, range evaluation,
  numeric/date coercion, the restricted evaluation context, fast-fail.
* `src/src/utils/batch_copy.py` (`BatchCopyManager`): grouping by report
  type, manifest building, the manifest/direct copy dispatch, staging
  manifest cleanup.
* `src/src/services/aws/redshift_service.py` (`RedshiftService`): the
  COPY executors, which catch their own exceptions and return status
  dictionaries.
* `src/src/processors/base.py` (`BaseProcessor.validate_with_business_rules`).

Modelling conventions:

* Python values flowing through the validator are modelled by `PyVal`
  (int, float, str, datetime).  Python floats are modelled by `ℚ`; no
  claim depends on IEEE rounding.  `int()`/`float()` parsing follows
  CPython's grammar (sign, digit groups with single underscores between
  digits, fraction, exponent); unicode digits and `inf`/`nan` keywords are
  not modelled (the call sites cannot receive them: `float` is only tried
  on strings containing a dot or an `e`).
* Exceptions are modelled with `Option`: a `none` stands for a raised
  exception at the point the Python code could raise, and the `try/except`
  blocks of the source become `match`/`Option.getD` at exactly the places
  the source catches.
* `eval` of COMPARISON/EXPRESSION rule text runs a general-purpose Python
  interpreter; it is modelled as an oracle parameter that receives exactly
  the evaluation context and builtin names the source exposes to it, and
  returns `none` when the evaluated expression raises.
* Character classes (`\w`, `\s`, `str.strip`, `str.lower`) are modelled
  over ASCII; the repository's rule expressions and field names are ASCII.
* External effects of the batch copy path (S3 put/delete, Redshift COPY)
  are modelled by an environment of oracles plus an event trace listing
  each issued call in order.
-/

set_option maxRecDepth 4000

namespace CleanElt

/-! ## Python character and string helpers -/

/-- Python `str.strip()` whitespace (ASCII part of `str.isspace`). -/
def isPyWs (c : Char) : Bool :=
  c = ' ' || c = '\t' || c = '\n' || c = '\r' || c = '\x0b' || c = '\x0c'

/-- Python regex `\w` (ASCII part): letters, digits, underscore. -/
def isWordChar (c : Char) : Bool :=
  c.isAlpha || c.isDigit || c = '_'

/-- Python identifier first character `[a-zA-Z_]`. -/
def isIdentFirst (c : Char) : Bool :=
  c.isAlpha || c = '_'

def pyStripList (cs : List Char) : List Char :=
  ((cs.dropWhile isPyWs).reverse.dropWhile isPyWs).reverse

/-- Python `str.strip()` (ASCII whitespace). -/
def pyStrip (s : String) : String :=
  String.mk (pyStripList s.toList)

/-- Python `c in s` for a single character. -/
def strHasChar (s : String) (c : Char) : Bool :=
  s.toList.contains c

/-- Lexicographic (code-point) strict order on char lists, as Python
compares `str` values. -/
def charsLt : List Char → List Char → Bool
  | [], [] => false
  | [], _ :: _ => true
  | _ :: _, [] => false
  | a :: as, b :: bs => if a = b then charsLt as bs else decide (a < b)

def pyStrLtB (a b : String) : Bool := charsLt a.toList b.toList

/-- Python `str.lower()` (ASCII). -/
def pyLower (s : String) : String :=
  String.mk (s.toList.map Char.toLower)

/-- Is `needle` a contiguous substring of `hay` (Python `in` on `str`). -/
def listHasInfix (needle hay : List Char) : Bool :=
  match hay with
  | [] => needle.isEmpty
  | _ :: tl => needle.isPrefixOf hay || listHasInfix needle tl

def strHasSub (hay needle : String) : Bool :=
  listHasInfix needle.toList hay.toList

/-! ## Integer and float literals (`int(...)`, `float(...)`) -/

/-- Digit groups as CPython accepts them after the first digit: digits with
single underscores standing between digits. -/
def intDigitsOk : List Char → Bool
  | [] => true
  | [c] => c.isDigit
  | c :: c2 :: rest =>
    if c.isDigit then intDigitsOk (c2 :: rest)
    else c = '_' && c2.isDigit && intDigitsOk rest

def digitsVal (cs : List Char) : Nat :=
  cs.foldl (fun acc c => acc * 10 + (c.toNat - '0'.toNat)) 0

/-- Split an optional leading sign. Returns (negative?, rest). -/
def signSplit (cs : List Char) : Bool × List Char :=
  if cs.head? = some '+' then (false, cs.tail)
  else if cs.head? = some '-' then (true, cs.tail)
  else (false, cs)

/-- A nonempty digit group: first character a digit, underscores only
between digits. -/
def groupOk (cs : List Char) : Bool :=
  match cs with
  | [] => false
  | c :: _ => c.isDigit && intDigitsOk cs

def digitGroupVal (cs : List Char) : Nat :=
  digitsVal (cs.filter (fun x => x ≠ '_'))

/-- CPython `int(s)` on an already-stripped string: optional sign, then a
nonempty digit group. `none` models the `ValueError`. -/
def pyInt (s : String) : Option Int :=
  if groupOk (signSplit s.toList).2 then
    some (if (signSplit s.toList).1
      then -(Int.ofNat (digitGroupVal (signSplit s.toList).2))
      else Int.ofNat (digitGroupVal (signSplit s.toList).2))
  else none

def isRunChar (c : Char) : Bool := c.isDigit || c = '_'

/-- One digit-or-underscore run taken greedily.  Returns the run and the
remainder. -/
def takeDigitRun (cs : List Char) : List Char × List Char :=
  (cs.takeWhile isRunChar, cs.dropWhile isRunChar)

/-- A possibly-empty digit group (empty, or a valid group). -/
def groupOkOrEmpty (cs : List Char) : Bool :=
  cs.isEmpty || groupOk cs

/-- The stages of `float(s)` parsing, named so the grammar can be reasoned
about: the sign-stripped characters, the integer-part run, the fractional
run after an optional dot, the exponent run after an optional `e`/`E` and
its sign, and the unconsumed remainder. -/
def pfCs (s : String) : List Char := (signSplit s.toList).2

def pfIp (s : String) : List Char := (takeDigitRun (pfCs s)).1

def pfRest1 (s : String) : List Char := (takeDigitRun (pfCs s)).2

def pfHasDot (s : String) : Bool := (pfRest1 s).head? = some '.'

def pfFp (s : String) : List Char :=
  if pfHasDot s then (takeDigitRun (pfRest1 s).tail).1 else []

def pfRest2 (s : String) : List Char :=
  if pfHasDot s then (takeDigitRun (pfRest1 s).tail).2 else pfRest1 s

def pfHasExp (s : String) : Bool :=
  (pfRest2 s).head? = some 'e' || (pfRest2 s).head? = some 'E'

def pfDs (s : String) : List Char :=
  if pfHasExp s then (takeDigitRun (signSplit (pfRest2 s).tail).2).1 else []

def pfRest3 (s : String) : List Char :=
  if pfHasExp s then (takeDigitRun (signSplit (pfRest2 s).tail).2).2 else pfRest2 s

/-- CPython `float(s)` on an already-stripped string, modelled over `ℚ`:
`sign? (digits ['.' digits?] | '.' digits) (('e'|'E') sign? digits)?` with
underscore grouping, full consumption required. `inf`/`nan` are not
modelled (unreachable from the call site). -/
def pyFloat (s : String) : Option ℚ :=
  if (pfRest3 s).isEmpty && groupOkOrEmpty (pfIp s) && groupOkOrEmpty (pfFp s)
      && !(((pfIp s).filter (fun c => c ≠ '_')).isEmpty
            && ((pfFp s).filter (fun c => c ≠ '_')).isEmpty)
      && (!pfHasExp s || groupOk (pfDs s)) then
    let fracDigits := (pfFp s).filter (fun c => c ≠ '_')
    let mant : ℚ := (digitGroupVal (pfIp s) : ℚ) +
      (digitsVal fracDigits : ℚ) / ((10 : ℚ) ^ fracDigits.length)
    let expVal : ℤ :=
      if pfHasExp s then
        if (signSplit (pfRest2 s).tail).1
          then -(Int.ofNat (digitGroupVal (pfDs s)))
          else Int.ofNat (digitGroupVal (pfDs s))
      else 0
    let q := mant * (10 : ℚ) ^ expVal
    some (if (signSplit s.toList).1 then -q else q)
  else none

/-! ## Datetimes -/

/-- A Python `datetime.datetime`; `tzOff` is the UTC offset in minutes of an
aware value, `none` for a naive one. -/
structure PyDateTime where
  year : Nat
  month : Nat
  day : Nat
  hour : Nat
  minute : Nat
  second : Nat
  usec : Nat
  tzOff : Option Int
deriving DecidableEq, Repr

def isLeapYear (y : Nat) : Bool :=
  y % 4 = 0 && (y % 100 ≠ 0 || y % 400 = 0)

def daysInMonth (y m : Nat) : Nat :=
  if m = 2 then (if isLeapYear y then 29 else 28)
  else if m = 4 || m = 6 || m = 9 || m = 11 then 30
  else 31

def daysBeforeMonth (y m : Nat) : Nat :=
  let base :=
    match m with
    | 1 => 0 | 2 => 31 | 3 => 59 | 4 => 90 | 5 => 120 | 6 => 151
    | 7 => 181 | 8 => 212 | 9 => 243 | 10 => 273 | 11 => 304 | _ => 334
  if 3 ≤ m && isLeapYear y then base + 1 else base

/-- Days from year 1 Jan 1 to the given civil date (proleptic Gregorian). -/
def daysFromCivil (y m d : Nat) : Nat :=
  365 * (y - 1) + (y - 1) / 4 + (y - 1) / 400 - (y - 1) / 100
    + daysBeforeMonth y m + (d - 1)

/-- The instant of a datetime in microseconds, normalising an aware value by
its UTC offset; a naive value is treated as offset 0 (Python compares naive
with naive and aware with aware, each consistently). -/
def dtInstant (t : PyDateTime) : Int :=
  let off : Int := t.tzOff.getD 0
  (((Int.ofNat (daysFromCivil t.year t.month t.day)) * 86400
    + Int.ofNat (t.hour * 3600 + t.minute * 60 + t.second)
    - off * 60) * 1000000) + Int.ofNat t.usec

/-- Valid arguments to the `datetime` constructor (what `ValueError` guards). -/
def dtValid (y m d h mi s : Nat) : Bool :=
  1 ≤ y && y ≤ 9999 && 1 ≤ m && m ≤ 12 && 1 ≤ d && d ≤ daysInMonth y m
    && h ≤ 23 && mi ≤ 59 && s ≤ 59

def mkNaive (y m d h mi s : Nat) : PyDateTime :=
  { year := y, month := m, day := d, hour := h, minute := mi, second := s,
    usec := 0, tzOff := none }

/-- Parse exactly `n` decimal digits from the front. -/
def parseFixedDigits (n : Nat) (cs : List Char) : Option (Nat × List Char) :=
  let run := cs.take n
  if run.length = n && run.all Char.isDigit then
    some (digitsVal run, cs.drop n)
  else none

/-- `strptime`-style 1-or-2 digit numeric field.  Two digits are taken when
two digits stand at the front (the field's 2-digit alternatives come first
in CPython's `TimeRE`); otherwise a single digit. -/
def parse2or1 (cs : List Char) : Option (Nat × List Char) :=
  match cs with
  | c1 :: c2 :: rest =>
    if c1.isDigit && c2.isDigit then some (digitsVal [c1, c2], rest)
    else if c1.isDigit then some (digitsVal [c1], c2 :: rest)
    else none
  | [c1] => if c1.isDigit then some (digitsVal [c1], []) else none
  | [] => none

def expectChar (c : Char) (cs : List Char) : Option (List Char) :=
  match cs with
  | d :: rest => if d = c then some rest else none
  | [] => none

/-- `datetime.strptime(s, '%Y-%m-%d')` (full consumption, constructor
validation), as used by `_convert_to_numeric`. -/
def strptimeYmd (s : String) : Option PyDateTime :=
  match parseFixedDigits 4 s.toList with
  | none => none
  | some (y, r1) =>
    match expectChar '-' r1 with
    | none => none
    | some r2 =>
      match parse2or1 r2 with
      | none => none
      | some (m, r3) =>
        match expectChar '-' r3 with
        | none => none
        | some r4 =>
          match parse2or1 r4 with
          | none => none
          | some (d, r5) =>
            if r5.isEmpty && dtValid y m d 0 0 0 then
              some (mkNaive y m d 0 0 0)
            else none

/-- Parse `%H:%M:%S` with `strptime` field widths. -/
def parseHms (cs : List Char) : Option (Nat × Nat × Nat × List Char) :=
  match parse2or1 cs with
  | none => none
  | some (h, r1) =>
    match expectChar ':' r1 with
    | none => none
    | some r2 =>
      match parse2or1 r2 with
      | none => none
      | some (mi, r3) =>
        match expectChar ':' r3 with
        | none => none
        | some r4 =>
          match parse2or1 r4 with
          | none => none
          | some (sec, r5) => some (h, mi, sec, r5)

/-- `datetime.strptime(s, '%Y-%m-%d %H:%M:%S')` or the `'T'`-separated
variant, per the separator argument. -/
def strptimeYmdHms (sep : Char) (s : String) : Option PyDateTime :=
  match parseFixedDigits 4 s.toList with
  | none => none
  | some (y, r1) =>
    match expectChar '-' r1 with
    | none => none
    | some r2 =>
      match parse2or1 r2 with
      | none => none
      | some (m, r3) =>
        match expectChar '-' r3 with
        | none => none
        | some r4 =>
          match parse2or1 r4 with
          | none => none
          | some (d, r5) =>
            match expectChar sep r5 with
            | none => none
            | some r6 =>
              match parseHms r6 with
              | none => none
              | some (h, mi, sec, r7) =>
                if r7.isEmpty && dtValid y m d h mi sec then
                  some (mkNaive y m d h mi sec)
                else none

/-- Fractional seconds of `fromisoformat` before Python 3.11: exactly 3 or 6
digits. Returns microseconds. -/
def parseIsoFraction (cs : List Char) : Option (Nat × List Char) :=
  match parseFixedDigits 6 cs with
  | some (f, r) => some (f, r)
  | none =>
    match parseFixedDigits 3 cs with
    | some (f, r) => some (f * 1000, r)
    | none => none

/-- UTC offset `±HH:MM` (seconds of the offset are not modelled; the source
never constructs one). Returns minutes. -/
def parseIsoOffset (cs : List Char) : Option (Int × List Char) :=
  match cs with
  | sgn :: rest =>
    if sgn = '+' || sgn = '-' then
      match parseFixedDigits 2 rest with
      | none => none
      | some (oh, r1) =>
        match expectChar ':' r1 with
        | none => none
        | some r2 =>
          match parseFixedDigits 2 r2 with
          | none => none
          | some (om, r3) =>
            if oh ≤ 23 && om ≤ 59 then
              let mins : Int := Int.ofNat (oh * 60 + om)
              some (if sgn = '-' then -mins else mins, r3)
            else none
    else none
  | [] => none

/-- Time part of `fromisoformat`: `HH[:MM[:SS[.fff[fff]]]][±HH:MM]`. -/
def parseIsoTime (cs : List Char) : Option (Nat × Nat × Nat × Nat × Option Int) :=
  match parseFixedDigits 2 cs with
  | none => none
  | some (h, r1) =>
    let step2 : Option (Nat × Nat × Nat × List Char) :=
      match r1 with
      | ':' :: tl =>
        match parseFixedDigits 2 tl with
        | none => none
        | some (mi, r2) =>
          match r2 with
          | ':' :: tl2 =>
            match parseFixedDigits 2 tl2 with
            | none => none
            | some (sec, r3) =>
              match r3 with
              | '.' :: tl3 =>
                match parseIsoFraction tl3 with
                | none => none
                | some (us, r4) => some (mi, sec, us, r4)
              | _ => some (mi, sec, 0, r3)
          | _ => some (mi, 0, 0, r2)
      | _ => some (0, 0, 0, r1)
    match step2 with
    | none => none
    | some (mi, sec, us, r5) =>
      match r5 with
      | [] => some (h, mi, sec, us, none)
      | _ =>
        match parseIsoOffset r5 with
        | none => none
        | some (off, r6) =>
          if r6.isEmpty then some (h, mi, sec, us, some off) else none

/-- `datetime.fromisoformat` before Python 3.11: `YYYY-MM-DD` exactly, then
optionally one separator character (any character) and a time part. -/
def pyFromIsoformat (s : String) : Option PyDateTime :=
  let cs := s.toList
  match parseFixedDigits 4 cs with
  | none => none
  | some (y, r1) =>
    match expectChar '-' r1 with
    | none => none
    | some r2 =>
      match parseFixedDigits 2 r2 with
      | none => none
      | some (m, r3) =>
        match expectChar '-' r3 with
        | none => none
        | some r4 =>
          match parseFixedDigits 2 r4 with
          | none => none
          | some (d, r5) =>
            match r5 with
            | [] =>
              if dtValid y m d 0 0 0 then some (mkNaive y m d 0 0 0) else none
            | _ :: r6 =>
              match parseIsoTime r6 with
              | none => none
              | some (h, mi, sec, us, off) =>
                if dtValid y m d h mi sec then
                  some { year := y, month := m, day := d, hour := h,
                         minute := mi, second := sec, usec := us, tzOff := off }
                else none

/-- Python `s.replace('Z', '+00:00')` (every occurrence). -/
def replaceZ (s : String) : String :=
  String.mk (s.toList.flatMap (fun c => if c = 'Z' then "+00:00".toList else [c]))

/-! ## Python values and `_convert_to_numeric` -/

/-- The Python values that flow through the validator: ints, floats
(modelled by `ℚ`), strings and datetimes. -/
inductive PyVal where
  | int (n : Int)
  | float (q : ℚ)
  | str (s : String)
  | date (d : PyDateTime)
deriving DecidableEq, Repr

/-- The datetime branch of `_convert_to_numeric`: `fromisoformat` on the
`Z`-replaced string, then `strptime` with `'%Y-%m-%d %H:%M:%S'`,
`'%Y-%m-%dT%H:%M:%S'`, `'%Y-%m-%d'` in that order. -/
def tryParseDates (s : String) : Option PyDateTime :=
  match pyFromIsoformat (replaceZ s) with
  | some d => some d
  | none =>
    match strptimeYmdHms ' ' s with
    | some d => some d
    | none =>
      match strptimeYmdHms 'T' s with
      | some d => some d
      | none => strptimeYmd s

/-- The guard `'T' in value or '-' in value and ':' in value` (Python
precedence: `or` over `and`). -/
def dateGuard (s : String) : Bool :=
  strHasChar s 'T' || (strHasChar s '-' && strHasChar s ':')

/-- `BusinessRulesValidator._convert_to_numeric`.  Numbers pass through;
strings are stripped, the datetime parsers are tried when `dateGuard`
holds, then `int` when the string has no dot and no `e`/`E`, else `float`;
every parse failure falls back to the stripped string (the source's
`except` arms), so conversion is total. -/
def pyConvertToNumeric (v : PyVal) : PyVal :=
  match v with
  | .int n => .int n
  | .float q => .float q
  | .date d => .date d
  | .str s0 =>
    let s := pyStrip s0
    let fromDate : Option PyDateTime := if dateGuard s then tryParseDates s else none
    match fromDate with
    | some d => .date d
    | none =>
      if !(strHasChar s '.') && !(strHasChar (pyLower s) 'e') then
        match pyInt s with
        | some n => .int n
        | none => .str s
      else
        match pyFloat s with
        | some q => .float q
        | none => .str s

/-! ## Python comparison semantics -/

inductive CmpOp where
  | gt | lt | ge | le | eq | ne
deriving DecidableEq, Repr

def qCmp (op : CmpOp) (x y : ℚ) : Bool :=
  match op with
  | .gt => decide (y < x)
  | .lt => decide (x < y)
  | .ge => decide (y ≤ x)
  | .le => decide (x ≤ y)
  | .eq => decide (x = y)
  | .ne => decide (x ≠ y)

def strCmp (op : CmpOp) (x y : String) : Bool :=
  match op with
  | .gt => pyStrLtB y x
  | .lt => pyStrLtB x y
  | .ge => !(pyStrLtB x y)
  | .le => !(pyStrLtB y x)
  | .eq => decide (x = y)
  | .ne => decide (x ≠ y)

def intCmp (op : CmpOp) (x y : Int) : Bool :=
  match op with
  | .gt => decide (y < x)
  | .lt => decide (x < y)
  | .ge => decide (y ≤ x)
  | .le => decide (x ≤ y)
  | .eq => decide (x = y)
  | .ne => decide (x ≠ y)

/-- Numeric view: Python compares `int` and `float` by value. -/
def numQ : PyVal → Option ℚ
  | .int n => some (n : ℚ)
  | .float q => some q
  | _ => none

/-- A Python comparison `x op y` over the modelled value universe.
`none` models the `TypeError` of an order comparison between unrelated
types (or between naive and aware datetimes); `==`/`!=` between unrelated
types return `False`/`True` instead of raising. -/
def pyCompare (op : CmpOp) (a b : PyVal) : Option Bool :=
  match numQ a, numQ b with
  | some x, some y => some (qCmp op x y)
  | _, _ =>
    match a, b with
    | .str x, .str y => some (strCmp op x y)
    | .date x, .date y =>
      if x.tzOff.isSome = y.tzOff.isSome then
        some (intCmp op (dtInstant x) (dtInstant y))
      else
        match op with
        | .eq => some false
        | .ne => some true
        | _ => none
    | _, _ =>
      match op with
      | .eq => some false
      | .ne => some true
      | _ => none

/-- Python `str(value)` as used for `field_value` reporting.  The float and
datetime forms are simplified renderings (no claim inspects them); int and
str forms are exact. -/
def pyStr : PyVal → String
  | .int n => toString n
  | .float q => toString q
  | .str s => s
  | .date d =>
    toString d.year ++ "-" ++ toString d.month ++ "-" ++ toString d.day ++ " "
      ++ toString d.hour ++ ":" ++ toString d.minute ++ ":" ++ toString d.second

/-- A record (one row), as the Python `Dict[str, Any]`: keys unique,
insertion-ordered. -/
abbrev RecordData := List (String × PyVal)

def recordGet (data : RecordData) (k : String) : Option PyVal :=
  match data.find? (fun p => p.1 = k) with
  | some p => some p.2
  | none => none

def recordKeys (data : RecordData) : List String :=
  data.map Prod.fst

/-! ## Rules and violations -/

/-- A rule row from the rule store.  `rule_id`, `rule_name` and
`rule_expression` are accessed with `[]` in the source (mandatory);
`severity`, `description` and `validation_type` with `.get` (optional). -/
structure Rule where
  ruleId : String
  ruleName : String
  ruleExpression : String
  severity : Option String
  description : Option String
  validationType : Option String
deriving DecidableEq, Repr

/-- A violation dictionary as `execute_rules` builds it. -/
structure Violation where
  ruleId : String
  ruleName : String
  severity : String
  description : String
  validationType : String
  fieldValue : Option String
deriving DecidableEq, Repr

/-- `priority_order.get(r.get('severity', 'INFO'), 3)`. -/
def rulePriority (r : Rule) : Nat :=
  match r.severity with
  | some s =>
    if s = "CRITICAL" then 0
    else if s = "ERROR" then 1
    else if s = "WARNING" then 2
    else if s = "INFO" then 3
    else 3
  | none => 3

def ruleLE (a b : Rule) : Prop := rulePriority a ≤ rulePriority b

instance : DecidableRel ruleLE := fun a b => inferInstanceAs (Decidable (rulePriority a ≤ rulePriority b))

instance : IsTotal Rule ruleLE := ⟨fun a b => Nat.le_total (rulePriority a) (rulePriority b)⟩

instance : IsTrans Rule ruleLE := ⟨fun _ _ _ hab hbc => Nat.le_trans hab hbc⟩

/-- `sorted(rules, key=priority)`: Python's sort is stable, and a stable
sort by a total key is the insertion sort by `ruleLE`. -/
def sortRulesByPriority (rules : List Rule) : List Rule :=
  List.insertionSort ruleLE rules

/-! ## Rule compilation (`_precompile_rule_expression`) -/

/-- A compiled expression cache entry. -/
inductive Compiled where
  | range (field : String) (op : CmpOp) (value : PyVal)
  | expression (expr : String)
deriving DecidableEq, Repr

/-- The comparison operators in the regex alternation order
`>=|<=|!=|==|>|<` (two-character operators first). -/
def parseOpChars : List Char → Option (CmpOp × List Char)
  | '>' :: '=' :: rest => some (.ge, rest)
  | '<' :: '=' :: rest => some (.le, rest)
  | '!' :: '=' :: rest => some (.ne, rest)
  | '=' :: '=' :: rest => some (.eq, rest)
  | '>' :: rest => some (.gt, rest)
  | '<' :: rest => some (.lt, rest)
  | _ => none

/-- `re.match(r'(\w+)\s*(>=|<=|!=|==|>|<)\s*(.+)', expression.strip())`.
Greedy `\w+` and `\s*` need no backtracking here because the operators
contain neither word nor space characters, and after the leading `strip`
the value position is nonempty exactly when anything follows the operator
(`.` stops at a newline, as the regex's `.` does). -/
def pyRangeMatch (expression : String) : Option (String × CmpOp × String) :=
  let cs := pyStripList expression.toList
  let fld := cs.takeWhile isWordChar
  if fld.isEmpty then none
  else
    let rest1 := (cs.dropWhile isWordChar).dropWhile isPyWs
    match parseOpChars rest1 with
    | none => none
    | some (op, rest2) =>
      let rest3 := rest2.dropWhile isPyWs
      let value := rest3.takeWhile (fun c => c ≠ '\n')
      if value.isEmpty then none
      else some (String.mk fld, op, String.mk value)

/-- The compiled-expression cache `self._compiled_expressions`, keyed by
`rule_id`. -/
abbrev CompiledMap := List (String × Compiled)

def compiledLookup (m : CompiledMap) (k : String) : Option Compiled :=
  match List.find? (fun p => p.1 = k) m with
  | some p => some p.2
  | none => none

/-- `_precompile_rule_expression`: a RANGE rule is stored only when the
regex matches (the literal operand converted by `_convert_to_numeric`
after `strip`); any other validation type stores the raw expression. -/
def precompileRule (m : CompiledMap) (r : Rule) : CompiledMap :=
  if r.validationType.getD "BUSINESS" = "RANGE" then
    match pyRangeMatch r.ruleExpression with
    | some (field, op, value) =>
      m ++ [(r.ruleId, Compiled.range field op (pyConvertToNumeric (.str (pyStrip value))))]
    | none => m
  else
    m ++ [(r.ruleId, Compiled.expression r.ruleExpression)]

/-- The compilation loop of `get_rules_optimized`: each rule whose id is
not yet cached is pre-compiled, in rule order. -/
def compileAllInto (m : CompiledMap) (rules : List Rule) : CompiledMap :=
  rules.foldl (fun acc r =>
    if (compiledLookup acc r.ruleId).isSome then acc else precompileRule acc r) m

/-! ## The safe evaluation context (`_create_safe_context`) -/

/-- A value bound in the `eval` context: a converted record value, a
`datetime.date` from the date-field special case, or one of the class /
function objects the source injects. -/
inductive CtxVal where
  | val (v : PyVal)
  | dateObj (y m d : Nat)
  | classDatetime
  | classDate
  | fn (name : String)
deriving DecidableEq, Repr

abbrev Ctx := List (String × CtxVal)

def ctxKeys (c : Ctx) : List String := c.map Prod.fst

def ctxHasKey (c : Ctx) (k : String) : Bool := (ctxKeys c).contains k

/-- `dict.update` for one key: overwrite in place, else append. -/
def dictSet (d : Ctx) (k : String) (v : CtxVal) : Ctx :=
  if ctxHasKey d k then d.map (fun p => if p.1 = k then (k, v) else p)
  else d ++ [(k, v)]

/-- The date-field special case of `_create_safe_context`: formats
`'%Y-%m-%d'`, `'%m/%d/%Y'`, `'%d/%m/%Y'`, first success wins, result taken
with `.date()`. -/
def strptimeMdy (s : String) : Option PyDateTime :=
  match parse2or1 s.toList with
  | none => none
  | some (m, r1) =>
    match expectChar '/' r1 with
    | none => none
    | some r2 =>
      match parse2or1 r2 with
      | none => none
      | some (d, r3) =>
        match expectChar '/' r3 with
        | none => none
        | some r4 =>
          match parseFixedDigits 4 r4 with
          | none => none
          | some (y, r5) =>
            if r5.isEmpty && dtValid y m d 0 0 0 then
              some (mkNaive y m d 0 0 0)
            else none

def strptimeDmy (s : String) : Option PyDateTime :=
  match parse2or1 s.toList with
  | none => none
  | some (d, r1) =>
    match expectChar '/' r1 with
    | none => none
    | some r2 =>
      match parse2or1 r2 with
      | none => none
      | some (m, r3) =>
        match expectChar '/' r3 with
        | none => none
        | some r4 =>
          match parseFixedDigits 4 r4 with
          | none => none
          | some (y, r5) =>
            if r5.isEmpty && dtValid y m d 0 0 0 then
              some (mkNaive y m d 0 0 0)
            else none

def tryContextDateFormats (s : String) : Option PyDateTime :=
  match strptimeYmd s with
  | some d => some d
  | none =>
    match strptimeMdy s with
    | some d => some d
    | none => strptimeDmy s

/-- One field's context entry. -/
def contextEntry (field : String) (v : PyVal) : CtxVal :=
  match v with
  | .str s =>
    if strHasSub (pyLower field) "date" && 8 ≤ s.length then
      match tryContextDateFormats s with
      | some d => .dateObj d.year d.month d.day
      | none => .val (pyConvertToNumeric (.str s))
    else .val (pyConvertToNumeric (.str s))
  | other => .val other

/-- `_create_safe_context`: each record field coerced (string fields whose
lowercased name contains `date` and whose value has length ≥ 8 are tried
as dates first), then the `datetime` class is added under `'datetime'`
when no such field exists, and the `date` class under `'date_class'` when
no `'date'` field exists. -/
def createSafeContext (data : RecordData) : Ctx :=
  let base : Ctx := data.map (fun p => (p.1, contextEntry p.1 p.2))
  let withDt := if ctxHasKey base "datetime" then base
    else base ++ [("datetime", CtxVal.classDatetime)]
  if ctxHasKey withDt "date" then withDt
  else withDt ++ [("date_class", CtxVal.classDate)]

/-- The `__builtins__` allow-list of `_evaluate_comparison_rule`, in the
source's dict order. -/
def comparisonBuiltinNames : List String :=
  ["abs", "min", "max", "round", "len", "sum"]

/-- The functions `_evaluate_expression_rule` merges into the context
(`__builtins__` is empty there), in the source's dict order. -/
def expressionUpdateNames : List String :=
  ["abs", "len", "str", "int", "float", "min", "max", "round"]

/-- The context handed to `eval` for an EXPRESSION rule. -/
def expressionContext (data : RecordData) : Ctx :=
  expressionUpdateNames.foldl (fun c n => dictSet c n (CtxVal.fn n)) (createSafeContext data)

/-- Every name reachable from COMPARISON rule text: the locals context
plus the builtin allow-list. -/
def comparisonExposedNames (data : RecordData) : List String :=
  ctxKeys (createSafeContext data) ++ comparisonBuiltinNames

/-- Every name reachable from EXPRESSION rule text (builtins are empty). -/
def expressionExposedNames (data : RecordData) : List String :=
  ctxKeys (expressionContext data)

/-! ## Generic rule evaluation (`_evaluate_rule` and helpers) -/

/-- What one `eval` call sees: the expression, the locals context, and the
builtin names.  A `Python eval` oracle maps this to `none` (the expression
raised) or a truth value; the evaluator cannot observe anything else. -/
structure EvalCall where
  expr : String
  ctx : Ctx
  builtins : List String

/-- The generic Python expression evaluator, as an oracle. -/
abbrev EvalOracle := EvalCall → Option Bool

/-- `re.split(r'\s*(>=|<=|!=|==|>|<)\s*', expression)`: the next separator
match begins at the whitespace run preceding the first operator
occurrence; the piece before loses that trailing whitespace, and scanning
resumes after the operator's trailing whitespace. Implemented with fuel
(each found separator consumes at least one character). -/
def findFirstOpSplit : List Char → Option (List Char × CmpOp × List Char)
  | [] => none
  | c :: cs =>
    match parseOpChars (c :: cs) with
    | some (op, rest) => some ([], op, rest)
    | none =>
      match findFirstOpSplit cs with
      | some (before, op, rest) => some (c :: before, op, rest)
      | none => none

def dropTrailingWs (cs : List Char) : List Char :=
  (cs.reverse.dropWhile isPyWs).reverse

def pySplitParts : Nat → List Char → List (List Char)
  | 0, cs => [cs]
  | fuel + 1, cs =>
    match findFirstOpSplit cs with
    | none => [cs]
    | some (before, op, rest) =>
      dropTrailingWs before :: (opChars op) :: pySplitParts fuel (rest.dropWhile isPyWs)
where
  opChars : CmpOp → List Char
    | .ge => ['>', '=']
    | .le => ['<', '=']
    | .ne => ['!', '=']
    | .eq => ['=', '=']
    | .gt => ['>']
    | .lt => ['<']

/-- `_evaluate_range_rule`: strip, split; a token count other than 3 is
logged as malformed and returns `False`; a missing field returns `False`;
both operands are converted and compared, a comparison `TypeError` is
caught and returns `False`. -/
def evaluateRangeRule (expression : String) (data : RecordData) : Bool :=
  let cs := pyStripList expression.toList
  match pySplitParts (cs.length + 1) cs with
  | [fieldCs, opCs, valueCs] =>
    match parseOpChars opCs with
    | some (op, []) =>
      let field := pyStrip (String.mk fieldCs)
      match recordGet data field with
      | none => false
      | some fv =>
        let x := pyConvertToNumeric fv
        let y := pyConvertToNumeric (.str (pyStrip (String.mk valueCs)))
        (pyCompare op x y).getD false
    | _ => false
  | _ => false

/-- `_evaluate_comparison_rule`: `eval` under the safe context with the
builtin allow-list; an exception returns `False`. -/
def evaluateComparisonRule (oracle : EvalOracle) (expression : String)
    (data : RecordData) : Bool :=
  (oracle { expr := expression, ctx := createSafeContext data,
            builtins := comparisonBuiltinNames }).getD false

/-- `_evaluate_expression_rule`: `eval` with empty builtins and the
function-augmented context; an exception returns `False`. -/
def evaluateExpressionRule (oracle : EvalOracle) (expression : String)
    (data : RecordData) : Bool :=
  (oracle { expr := expression, ctx := expressionContext data,
            builtins := [] }).getD false

/-- `_evaluate_rule`: dispatch on `validation_type` (default `BUSINESS`);
each branch catches its own exceptions, and the outer `except` returns
`False`, so the result is total. -/
def evaluateRule (oracle : EvalOracle) (r : Rule) (data : RecordData) : Bool :=
  match r.validationType.getD "BUSINESS" with
  | "RANGE" => evaluateRangeRule r.ruleExpression data
  | "COMPARISON" => evaluateComparisonRule oracle r.ruleExpression data
  | _ => evaluateExpressionRule oracle r.ruleExpression data

/-- `_execute_compiled_range_rule`: a missing field silently does not fire
(`some false`); otherwise the converted field value is compared with the
pre-converted literal. `none` models the uncaught `TypeError` of an order
comparison between incompatible operands, which propagates to
`execute_rules`' handler. -/
def execCompiledRangeRule (field : String) (op : CmpOp) (expected : PyVal)
    (data : RecordData) : Option Bool :=
  match recordGet data field with
  | none => some false
  | some fv => pyCompare op (pyConvertToNumeric fv) expected

/-- `_execute_compiled_rule`: a compiled range entry runs the fast path;
a compiled expression entry falls back to `_evaluate_rule` on the rule
itself. -/
def execCompiledRule (oracle : EvalOracle) (c : Compiled) (r : Rule)
    (data : RecordData) : Option Bool :=
  match c with
  | .range field op value => execCompiledRangeRule field op value data
  | .expression _ => some (evaluateRule oracle r data)

/-- One iteration of the `execute_rules` loop body up to the firing test:
`none` is an exception caught by the loop's `except` (no violation,
continue). -/
def evalRuleStep (oracle : EvalOracle) (compiled : CompiledMap) (r : Rule)
    (data : RecordData) : Option Bool :=
  match compiledLookup compiled r.ruleId with
  | some c => execCompiledRule oracle c r data
  | none => some (evaluateRule oracle r data)

/-- `_get_relevant_field_value`: the identifiers of the expression (maximal
word-character runs starting with a letter or underscore), in order; the
first one present in the record and outside the exclusion list is
rendered with `str`. Implemented with fuel (each step consumes a
character). -/
def identifiersOf : Nat → List Char → List String
  | 0, _ => []
  | _ + 1, [] => []
  | fuel + 1, c :: cs =>
    if isWordChar c then
      let run := c :: cs.takeWhile isWordChar
      let rest := cs.dropWhile isWordChar
      if isIdentFirst c then String.mk run :: identifiersOf fuel rest
      else identifiersOf fuel rest
    else identifiersOf fuel cs

def getRelevantFieldValue (r : Rule) (data : RecordData) : Option String :=
  let fields := identifiersOf (r.ruleExpression.toList.length + 1) r.ruleExpression.toList
  match fields.find? (fun f =>
      (recordGet data f).isSome && !(["abs", "len", "str", "int", "float"].contains f)) with
  | some f =>
    match recordGet data f with
    | some v => some (pyStr v)
    | none => none
  | none => none

/-- The violation dictionary built on a fired rule. -/
def mkViolation (r : Rule) (data : RecordData) : Violation :=
  { ruleId := r.ruleId,
    ruleName := r.ruleName,
    severity := r.severity.getD "ERROR",
    description := r.description.getD "",
    validationType := r.validationType.getD "BUSINESS",
    fieldValue := getRelevantFieldValue r data }

/-- The `execute_rules` loop over the (already sorted) rules: a fired rule
appends its violation; a fired CRITICAL rule breaks when fast-fail is
enabled; an exception in one rule's evaluation is caught and the loop
continues. -/
def execRulesLoop (fastFail : Bool) (oracle : EvalOracle) (compiled : CompiledMap)
    (data : RecordData) : List Rule → List Violation
  | [] => []
  | r :: rest =>
    if evalRuleStep oracle compiled r data = some true then
      let v := mkViolation r data
      if fastFail && r.severity = some "CRITICAL" then [v]
      else v :: execRulesLoop fastFail oracle compiled data rest
    else execRulesLoop fastFail oracle compiled data rest

/-- `execute_rules` on a freshly constructed validator (empty caches), with
the fast-fail flag as `__init__` leaves it unless `set_fast_fail` ran:
`get_rules_optimized` sorts the stored rules by severity priority and
pre-compiles them, then the loop executes them in order. -/
def executeRules (fastFail : Bool) (oracle : EvalOracle) (rules : List Rule)
    (data : RecordData) : List Violation :=
  let sorted := sortRulesByPriority rules
  let compiled := compileAllInto [] sorted
  execRulesLoop fastFail oracle compiled data sorted

/-! ## The validator's mutable caches (`__init__`, `get_rules`,
`get_rules_optimized`, `clear_cache`) -/

/-- The rule store (`ValidationRules.get_rules_by_report_type`), an
external collaborator. -/
abbrev RuleStore := String → List Rule

/-- The validator's cache state: `self._rules_cache`, the `lru_cache` on
`get_rules_optimized` (maxsize 128; eviction is not modelled — the system
has three report types), and `self._compiled_expressions`. -/
structure ValidatorState where
  rulesCache : List (String × List Rule)
  lruCache : List (String × List Rule)
  compiled : CompiledMap
deriving Repr

/-- `__init__`: all caches empty. -/
def initState : ValidatorState :=
  { rulesCache := [], lruCache := [], compiled := [] }

def cacheGet (c : List (String × List Rule)) (k : String) : Option (List Rule) :=
  match c.find? (fun p => p.1 = k) with
  | some p => some p.2
  | none => none

/-- `get_rules`: fill `_rules_cache` from the store on a miss.  The `Nat`
counts the store loads performed (0 or 1). -/
def getRulesS (store : RuleStore) (st : ValidatorState) (reportType : String) :
    List Rule × ValidatorState × Nat :=
  match cacheGet st.rulesCache reportType with
  | some rules => (rules, st, 0)
  | none =>
    let rules := store reportType
    (rules, { st with rulesCache := st.rulesCache ++ [(reportType, rules)] }, 1)

/-- `get_rules_optimized`: on an `lru_cache` hit the body does not run; on
a miss the rules are loaded, sorted by severity priority, compiled into
`_compiled_expressions`, and the sorted list is memoised. -/
def getRulesOptimizedS (store : RuleStore) (st : ValidatorState)
    (reportType : String) : List Rule × ValidatorState × Nat :=
  match cacheGet st.lruCache reportType with
  | some sorted => (sorted, st, 0)
  | none =>
    let (rules, st1, loads) := getRulesS store st reportType
    let sorted := sortRulesByPriority rules
    let compiled := compileAllInto st1.compiled sorted
    (sorted,
     { st1 with lruCache := st1.lruCache ++ [(reportType, sorted)],
                compiled := compiled },
     loads)

/-- `execute_rules` against the cache state: obtain (cached) sorted rules,
then run the loop with the compiled-expression cache as it stands. -/
def executeRulesS (store : RuleStore) (st : ValidatorState) (fastFail : Bool)
    (oracle : EvalOracle) (reportType : String) (data : RecordData) :
    List Violation × ValidatorState × Nat :=
  let (sorted, st1, loads) := getRulesOptimizedS store st reportType
  (execRulesLoop fastFail oracle st1.compiled data sorted, st1, loads)

/-- `clear_cache`: `self._rules_cache.clear()` and nothing else. -/
def clearCacheS (st : ValidatorState) : ValidatorState :=
  { st with rulesCache := [] }

/-! ## Validation coordinator (`BaseProcessor.validate_with_business_rules`) -/

/-- A field-level violation dictionary (severity read with `.get`). -/
structure FieldError where
  field : String
  error : String
  severity : Option String
deriving DecidableEq, Repr

/-- What the per-report-type field validator returns: either a list of
plain strings or a list of dictionaries (the source tests the first
element with `isinstance(..., str)`). -/
inductive FieldValidatorOut where
  | strs (errors : List String)
  | dicts (errors : List FieldError)
deriving DecidableEq, Repr

/-- The string-to-dict conversion: each string error becomes
`{'field': 'validation', 'error': e, 'severity': 'ERROR'}`. -/
def normalizeFieldErrors : FieldValidatorOut → List FieldError
  | .strs errors => errors.map (fun e =>
      { field := "validation", error := e, severity := some "ERROR" })
  | .dicts errors => errors

/-- The verdict dictionary `validate_with_business_rules` returns. -/
structure Verdict where
  fieldErrors : List FieldError
  businessViolations : List Violation
  isValid : Bool
deriving DecidableEq, Repr

/-- `validate_with_business_rules`: field validation first; business rules
run unless the field-error list is nonempty and contains a CRITICAL
severity; `is_valid` is the emptiness test on both lists. -/
def validateWithBusinessRules (fieldOut : FieldValidatorOut) (fastFail : Bool)
    (oracle : EvalOracle) (rules : List Rule) (data : RecordData) : Verdict :=
  let fieldErrors := normalizeFieldErrors fieldOut
  let businessViolations :=
    if fieldErrors.isEmpty || !(fieldErrors.any (fun e => e.severity = some "CRITICAL")) then
      executeRules fastFail oracle rules data
    else []
  { fieldErrors := fieldErrors,
    businessViolations := businessViolations,
    isValid := fieldErrors.length = 0 && businessViolations.length = 0 }

/-! ## Batch copy (`BatchCopyManager`, `RedshiftService`) -/

/-- `ReportType` (`src/src/models/enums.py`). -/
inductive ReportType where
  | sales | inventory | expense
deriving DecidableEq, Repr

/-- `report_type.display_name`. -/
def ReportType.displayName : ReportType → String
  | .sales => "sales"
  | .inventory => "inventory"
  | .expense => "expense"

/-- The string a member's `.value` tuple renders to inside the manifest key
f-string (the tuple `(s3_path, display_name)` formatted by Python). -/
def ReportType.valueStr : ReportType → String
  | .sales => "('Reports/Sales/', 'sales')"
  | .inventory => "('Reports/Inventory/', 'inventory')"
  | .expense => "('Reports/Expense/', 'expense')"

/-- A per-file validation summary dictionary; the batch copy path reads
only `status` (with `.get`), while the claims also speak of
`valid_rows`. -/
structure ValidationSummary where
  status : Option String
  validRows : Nat
deriving DecidableEq, Repr

/-- One element of `file_batches`. -/
structure FileBatch where
  s3Path : String
  reportType : ReportType
  summary : ValidationSummary
deriving DecidableEq, Repr

/-- A manifest entry `{"url": ..., "mandatory": True}`. -/
structure ManifestEntry where
  url : String
  mandatory : Bool
deriving DecidableEq, Repr

/-- An external call issued by the batch copy path, in issue order. -/
inductive S3Event where
  | putManifest (key : String) (entries : List ManifestEntry)
  | manifestCopy (table : String) (manifestPath : String)
  | deleteManifest (key : String)
  | directCopy (table : String) (s3Path : String)
deriving DecidableEq, Repr

/-- The outcome of one Redshift COPY as the service observes it. -/
inductive CopyOutcome where
  | ok (rows : Nat) (bytes : Nat)
  | err (msg : String)
deriving DecidableEq, Repr

/-- The external world: the timestamp the manifest key embeds, whether an
S3 `put_object`/`delete_object` succeeds (a `false` is a raised client
error), and each COPY's outcome. -/
structure CopyEnv where
  ts : String
  putOk : String → Bool
  deleteOk : String → Bool
  manifestCopyOutcome : String → String → CopyOutcome
  directCopyOutcome : String → String → CopyOutcome

/-- A result dictionary of the copy layer; only the fields the claims
inspect are carried. -/
structure CopyResult where
  status : String
  reason : Option String
  filesCount : Option Nat
  errorMsg : Option String
deriving DecidableEq, Repr

/-- `RedshiftService.execute_manifest_copy`: every exception inside is
caught and turned into a `FAILED` dictionary, so the call always
returns. -/
def executeManifestCopy (env : CopyEnv) (table : String) (manifestPath : String) :
    CopyResult :=
  match env.manifestCopyOutcome table manifestPath with
  | .ok _ _ => { status := "SUCCESS", reason := none, filesCount := none, errorMsg := none }
  | .err m => { status := "FAILED", reason := none, filesCount := none, errorMsg := some m }

/-- `RedshiftService.execute_copy_command`: likewise total. -/
def executeCopyCommand (env : CopyEnv) (table : String) (s3Path : String) :
    CopyResult :=
  match env.directCopyOutcome table s3Path with
  | .ok _ _ => { status := "SUCCESS", reason := none, filesCount := none, errorMsg := none }
  | .err m => { status := "FAILED", reason := none, filesCount := none, errorMsg := some m }

/-- The manifest-entry loop of `_copy_with_manifest`: candidates whose
summary status is `SUCCESS`, in arrival order, each `mandatory = True`.
`valid_rows` is not consulted. -/
def buildManifestEntries : List FileBatch → List ManifestEntry
  | [] => []
  | f :: fs =>
    if f.summary.status = some "SUCCESS" then
      { url := f.s3Path, mandatory := true } :: buildManifestEntries fs
    else buildManifestEntries fs

def manifestKey (rt : ReportType) (ts : String) : String :=
  "manifests/" ++ rt.valueStr ++ "/batch_" ++ ts ++ ".manifest"

def tableName (rt : ReportType) : String := rt.displayName ++ "_reports"

/-- `_copy_with_manifest`.  Zero eligible entries short-circuit to a
`SKIPPED` result before any external call.  Otherwise the manifest is
put; a put failure is caught by the function's own `except` (`FAILED`,
nothing else issued).  `execute_manifest_copy` always returns, the delete
is then issued unconditionally, and a delete failure is caught by the
same `except` (`FAILED` with `files_count`). -/
def copyWithManifest (env : CopyEnv) (files : List FileBatch) (bucket : String)
    (rt : ReportType) : CopyResult × List S3Event :=
  let entries := buildManifestEntries files
  if entries.isEmpty then
    ({ status := "SKIPPED", reason := some "no_valid_files",
       filesCount := some files.length, errorMsg := none }, [])
  else
    let key := manifestKey rt env.ts
    let manifestPath := "s3://" ++ bucket ++ "/" ++ key
    let putEv := S3Event.putManifest key entries
    if !(env.putOk key) then
      ({ status := "FAILED", reason := none, filesCount := some files.length,
         errorMsg := some "put_object" }, [putEv])
    else
      let table := tableName rt
      let copyRes := executeManifestCopy env table manifestPath
      let evs := [putEv, S3Event.manifestCopy table manifestPath,
                  S3Event.deleteManifest key]
      if env.deleteOk key then (copyRes, evs)
      else
        ({ status := "FAILED", reason := none, filesCount := some files.length,
           errorMsg := some "delete_object" }, evs)

/-- `_copy_single_file_direct`: one COPY against the file's table; the
service call is total and the `finally` only closes the pool. -/
def copySingleFileDirect (env : CopyEnv) (f : FileBatch) : CopyResult × List S3Event :=
  let table := tableName f.reportType
  (executeCopyCommand env table f.s3Path, [S3Event.directCopy table f.s3Path])

/-- `_group_files_by_type`: a Python dict keyed by report type — insertion
order of first occurrence, arrival order within each group. -/
def addToGroups (gs : List (ReportType × List FileBatch)) (b : FileBatch) :
    List (ReportType × List FileBatch) :=
  match gs with
  | [] => [(b.reportType, [b])]
  | (rt, fs) :: rest =>
    if rt = b.reportType then (rt, fs ++ [b]) :: rest
    else (rt, fs) :: addToGroups rest b

def groupFilesByType (batches : List FileBatch) : List (ReportType × List FileBatch) :=
  batches.foldl addToGroups []

/-- One iteration of the `batch_copy_with_manifest` loop: more than one
file in the group goes through the manifest path, exactly one goes
direct.  Groups are nonempty by construction; the `[]` arm is
unreachable. -/
def perCategoryCopy (env : CopyEnv) (bucket : String) (rt : ReportType) :
    List FileBatch → CopyResult × List S3Event
  | [] => ({ status := "FAILED", reason := none, filesCount := none,
             errorMsg := some "empty group" }, [])
  | [f] => copySingleFileDirect env f
  | f :: g :: rest => copyWithManifest env (f :: g :: rest) bucket rt

/-- The aggregate dictionary `batch_copy_with_manifest` returns. -/
structure BatchResult where
  status : String
  results : List (ReportType × CopyResult)
  totalFiles : Nat
deriving DecidableEq, Repr

/-- `batch_copy_with_manifest`: group, run each category in turn (the
`report_type` parameter is shadowed by the loop variable and unused), key
the result map by the member, wrap in a `SUCCESS` envelope.  Every step
of the loop is total, so the outer `except` arm (a bare `FAILED`
dictionary with no per-category results) is never taken. -/
def batchCopyWithManifest (env : CopyEnv) (batches : List FileBatch)
    (bucket : String) : BatchResult × List S3Event :=
  let groups := groupFilesByType batches
  let per := groups.map (fun g => (g.1, perCategoryCopy env bucket g.1 g.2))
  ({ status := "SUCCESS",
     results := per.map (fun p => (p.1, p.2.1)),
     totalFiles := batches.length },
   per.foldr (fun p acc => p.2.2 ++ acc) [])

/-- The put events of a trace (manifest productions). -/
def putsOf (evs : List S3Event) : List (String × List ManifestEntry) :=
  evs.filterMap (fun e => match e with
    | .putManifest k es => some (k, es)
    | _ => none)

/-- The delete events of a trace. -/
def deletesOf (evs : List S3Event) : List String :=
  evs.filterMap (fun e => match e with
    | .deleteManifest k => some k
    | _ => none)

/-! ## Claim-side definitions (following the spec's words, for comparison
with the code's behaviour) -/

/-- Eligibility as claim C2 states it: summary status `SUCCESS` and
`valid_rows > 0`. -/
def claimEligible (f : FileBatch) : Bool :=
  f.summary.status = some "SUCCESS" && 0 < f.summary.validRows

/-- The name set claim C5 states: the record's fields plus exactly
`abs, min, max, round, len, sum`. -/
def claimExposedNames (data : RecordData) : List String :=
  recordKeys data ++ ["abs", "min", "max", "round", "len", "sum"]

/-- A string matching a recognized date/time pattern, in claim C6's sense:
accepted by one of the conversion routine's own recognizers
(`fromisoformat` after `Z` replacement, or the three `strptime`
formats). -/
def matchesRecognizedDatePattern (s : String) : Bool :=
  (tryParseDates s).isSome

/-! ## Lookup helpers and concrete inputs for witnesses -/

/-- Lookup in the per-category result map. -/
def resultsGet (rs : List (ReportType × CopyResult)) (rt : ReportType) :
    Option CopyResult :=
  match rs.find? (fun p => p.1 = rt) with
  | some p => some p.2
  | none => none

/-- The validator state after one `execute_rules` call. -/
def validatorStateAfter (store : RuleStore) (st : ValidatorState) (ff : Bool)
    (oracle : EvalOracle) (rt : String) (d : RecordData) : ValidatorState :=
  (executeRulesS store st ff oracle rt d).2.1

/-- An eval oracle for scenarios that touch no COMPARISON/EXPRESSION rule. -/
def nullOracle : EvalOracle := fun _ => none

def demoCriticalRule : Rule :=
  { ruleId := "BR-C", ruleName := "payroll_check",
    ruleExpression := "amount > 10000", severity := some "CRITICAL",
    description := some "critical amount", validationType := some "RANGE" }

def demoErrorRule : Rule :=
  { ruleId := "BR-E", ruleName := "amount_check",
    ruleExpression := "amount > 100", severity := some "ERROR",
    description := some "large amount", validationType := some "RANGE" }

def qtyMalformedRule : Rule :=
  { ruleId := "R1", ruleName := "qty_check", ruleExpression := "qty >> 5",
    severity := some "ERROR", description := some "d",
    validationType := some "RANGE" }

def demoRecord : RecordData := [("amount", PyVal.str "15000")]

def tildeRecord : RecordData := [("qty", PyVal.str "~")]

def salesOk : FileBatch :=
  { s3Path := "s3://bucket/sales1.csv", reportType := ReportType.sales,
    summary := { status := some "SUCCESS", validRows := 5 } }

def salesZero : FileBatch :=
  { s3Path := "s3://bucket/sales2.csv", reportType := ReportType.sales,
    summary := { status := some "SUCCESS", validRows := 0 } }

def expenseOk : FileBatch :=
  { s3Path := "s3://bucket/exp1.csv", reportType := ReportType.expense,
    summary := { status := some "SUCCESS", validRows := 3 } }

def envAllOk : CopyEnv :=
  { ts := "20240101", putOk := fun _ => true, deleteOk := fun _ => true,
    manifestCopyOutcome := fun _ _ => CopyOutcome.ok 10 100,
    directCopyOutcome := fun _ _ => CopyOutcome.ok 10 100 }

/-- An environment where every Redshift COPY fails (but staging works). -/
def envCopyFails : CopyEnv :=
  { ts := "20240101", putOk := fun _ => true, deleteOk := fun _ => true,
    manifestCopyOutcome := fun _ _ => CopyOutcome.err "load failed",
    directCopyOutcome := fun _ _ => CopyOutcome.err "load failed" }

/-! # Theorems -/

/-! ## C7 — a malformed RANGE rule and the precompiled path -/

/-- C7: the claim says a malformed RANGE rule such as `"qty >> 5"` never
fires.  The precompiled path, however, parses `>>` as `>` with literal
operand `"> 5"`, so on a record whose `qty` is the string `"~"`
(lexicographically above `"> 5"`) `execute_rules` reports a violation,
while the validator's own fallback parser `_evaluate_range_rule` rejects
the same expression as malformed and never fires.  This evaluates the
embedded code at the failing input. -/
theorem c7_malformed_rule_fires :
    executeRules true nullOracle [qtyMalformedRule] tildeRecord =
      [{ ruleId := "R1", ruleName := "qty_check", severity := "ERROR",
         description := "d", validationType := "RANGE",
         fieldValue := some "~" }]
    ∧ evaluateRangeRule "qty >> 5" tildeRecord = false := by
  constructor
  · rfl
  · rfl

/-! ## C6 — coercion counterexample -/

/-- C6 counterexample: `"2023-01-01"` matches the conversion routine's own
recognized pattern list (`'%Y-%m-%d'` is among its `strptime` formats and
`fromisoformat` accepts it), yet `_convert_to_numeric` leaves it a string,
because the datetime branch is guarded by
`'T' in value or '-' in value and ':' in value` and a bare date has no
`'T'` and no `':'`.  So the claim that strings matching recognized
date/time patterns become timestamps is false at this input. -/
theorem c6_bare_date_stays_string :
    matchesRecognizedDatePattern "2023-01-01" = true
    ∧ pyConvertToNumeric (PyVal.str "2023-01-01") = PyVal.str "2023-01-01" := by
  constructor
  · rfl
  · rfl

/-! ## C5 — sandbox counterexample -/

/-- C5 counterexample: for the record `{"qty": 5}`, the evaluation context
of a COMPARISON rule exposes the name `datetime` (the `datetime` class),
which is neither a record field nor one of
`abs, min, max, round, len, sum`; so the claimed exact name allow-list is
false at this input (the same context also carries `date_class`). -/
theorem c5_datetime_exposed :
    "datetime" ∈ comparisonExposedNames [("qty", PyVal.int 5)]
    ∧ "datetime" ∉ claimExposedNames [("qty", PyVal.int 5)]
    ∧ "date_class" ∈ comparisonExposedNames [("qty", PyVal.int 5)] := by
  refine ⟨?_, ?_, ?_⟩
  · decide
  · decide
  · decide

/-! ## C2 — grouping/manifest counterexample -/

/-- C2 counterexample: a single `sales` category holding one candidate that
is eligible in the claim's sense (`SUCCESS`, `valid_rows = 5`) and one
that is not (`SUCCESS`, `valid_rows = 0`).  The claim says a category with
exactly one eligible candidate never produces a manifest; the code groups
by total candidate count (2 > 1), filters only on `status == 'SUCCESS'`,
and writes a manifest whose two entries include the `valid_rows = 0`
candidate. -/
theorem c2_single_eligible_produces_manifest :
    groupFilesByType [salesOk, salesZero] =
      [(ReportType.sales, [salesOk, salesZero])]
    ∧ [salesOk, salesZero].filter claimEligible = [salesOk]
    ∧ putsOf (batchCopyWithManifest envAllOk [salesOk, salesZero] "bkt").2 =
        [(manifestKey ReportType.sales "20240101",
          [{ url := "s3://bucket/sales1.csv", mandatory := true },
           { url := "s3://bucket/sales2.csv", mandatory := true }])] := by
  refine ⟨rfl, rfl, rfl⟩

/-! ## C9 — the validation coordinator -/

/-- C9: in every verdict of `validate_with_business_rules`, a CRITICAL
field-level violation suppresses business-rule evaluation entirely
(the business-violation list is empty), and `is_valid` holds exactly when
both the field-error list and the business-violation list are empty. -/
theorem c9_coordinator_short_circuit (fieldOut : FieldValidatorOut)
    (fastFail : Bool) (oracle : EvalOracle) (rules : List Rule)
    (data : RecordData) :
    ((validateWithBusinessRules fieldOut fastFail oracle rules data).fieldErrors.any
        (fun e => e.severity = some "CRITICAL") = true →
      (validateWithBusinessRules fieldOut fastFail oracle rules data).businessViolations = [])
    ∧ ((validateWithBusinessRules fieldOut fastFail oracle rules data).isValid = true ↔
        (validateWithBusinessRules fieldOut fastFail oracle rules data).fieldErrors = []
        ∧ (validateWithBusinessRules fieldOut fastFail oracle rules data).businessViolations = []) := by
  constructor
  · intro h
    simp only [validateWithBusinessRules] at h ⊢
    have hne : (normalizeFieldErrors fieldOut).isEmpty = false := by
      cases hfe : normalizeFieldErrors fieldOut with
      | nil => rw [hfe] at h; simp at h
      | cons a l => simp
    simp [h, hne]
  · simp only [validateWithBusinessRules]
    simp [List.length_eq_zero]
    intro hfe
    simp [hfe]

/-! ## C4 — the staging manifest is deleted exactly once, after the load -/

/-- C4: whenever `_copy_with_manifest` builds a nonempty manifest and the
staging put succeeds, the issued external calls are exactly the manifest
put, one manifest COPY, and then one delete of the same staging key — in
that order, whatever the COPY's outcome and whatever the delete's own
outcome.  In particular the delete is issued exactly once and only after
the bulk load returned. -/
theorem c4_manifest_deleted_once (env : CopyEnv) (files : List FileBatch)
    (bucket : String) (rt : ReportType)
    (hEntries : buildManifestEntries files ≠ [])
    (hPut : env.putOk (manifestKey rt env.ts) = true) :
    (copyWithManifest env files bucket rt).2 =
      [S3Event.putManifest (manifestKey rt env.ts) (buildManifestEntries files),
       S3Event.manifestCopy (tableName rt)
         ("s3://" ++ bucket ++ "/" ++ manifestKey rt env.ts),
       S3Event.deleteManifest (manifestKey rt env.ts)]
    ∧ deletesOf (copyWithManifest env files bucket rt).2 =
        [manifestKey rt env.ts] := by
  have hne : (buildManifestEntries files).isEmpty = false := by
    cases h : buildManifestEntries files with
    | nil => exact absurd h hEntries
    | cons a l => simp
  constructor
  · simp only [copyWithManifest, hne, hPut]
    cases hdel : env.deleteOk (manifestKey rt env.ts) <;> simp [hdel]
  · simp only [copyWithManifest, hne, hPut]
    cases hdel : env.deleteOk (manifestKey rt env.ts) <;> simp [hdel, deletesOf]

/-- C4 witness: two `sales` candidates, a put that succeeds and a COPY that
fails; the trace is exactly put, COPY, delete. -/
theorem c4_manifest_deleted_once_witness :
    (copyWithManifest envCopyFails [salesOk, salesZero] "bkt" ReportType.sales).2 =
      [S3Event.putManifest (manifestKey ReportType.sales "20240101")
         (buildManifestEntries [salesOk, salesZero]),
       S3Event.manifestCopy (tableName ReportType.sales)
         ("s3://" ++ "bkt" ++ "/" ++ manifestKey ReportType.sales "20240101"),
       S3Event.deleteManifest (manifestKey ReportType.sales "20240101")]
    ∧ deletesOf (copyWithManifest envCopyFails [salesOk, salesZero] "bkt" ReportType.sales).2 =
        [manifestKey ReportType.sales "20240101"] :=
  c4_manifest_deleted_once envCopyFails [salesOk, salesZero] "bkt" ReportType.sales
    (by decide) (by decide)

/-! ## C2 — grouping and manifest building, as the code implements it -/

/-- The manifest-entry loop is the filter on `status == 'SUCCESS'` mapped to
`mandatory = true` entries, preserving arrival order. -/
theorem buildManifestEntries_eq_filter (files : List FileBatch) :
    buildManifestEntries files =
      (files.filter (fun f => f.summary.status = some "SUCCESS")).map
        (fun f => { url := f.s3Path, mandatory := true }) := by
  induction files with
  | nil => rfl
  | cons f fs ih =>
    by_cases h : f.summary.status = some "SUCCESS"
    · simp [buildManifestEntries, List.filter_cons, h, ih]
    · simp [buildManifestEntries, List.filter_cons, h, ih]

/-- C2 (amended): the dispatch counts all candidates of a category, not the
eligible ones, and eligibility is `status == 'SUCCESS'` alone.  For every
category of every grouped batch: a single-candidate category never
produces a manifest (it goes to the direct copy whatever its summary
says); a multi-candidate category with zero `SUCCESS` candidates yields a
`SKIPPED` result and no external call; and a multi-candidate category
with at least one `SUCCESS` candidate produces exactly one manifest whose
entries are the `SUCCESS` candidates in arrival order, each marked
`mandatory = true` — even when only one candidate is eligible, and
including eligible-by-status candidates with `valid_rows = 0`. -/
theorem c2_manifest_building (env : CopyEnv) (bucket : String)
    (rt : ReportType) (files : List FileBatch) :
    (files.length ≤ 1 → putsOf (perCategoryCopy env bucket rt files).2 = [])
    ∧ (1 < files.length →
        (files.filter (fun f => f.summary.status = some "SUCCESS") = [] →
          (perCategoryCopy env bucket rt files).1.status = "SKIPPED"
          ∧ (perCategoryCopy env bucket rt files).2 = [])
        ∧ (files.filter (fun f => f.summary.status = some "SUCCESS") ≠ [] →
          putsOf (perCategoryCopy env bucket rt files).2 =
            [(manifestKey rt env.ts,
              (files.filter (fun f => f.summary.status = some "SUCCESS")).map
                (fun f => { url := f.s3Path, mandatory := true }))])) := by
  constructor
  · intro hlen
    match files with
    | [] => rfl
    | [f] => simp [perCategoryCopy, copySingleFileDirect, putsOf]
    | f :: g :: rest => simp at hlen
  · intro hlen
    match files with
    | [] => simp at hlen
    | [f] => simp at hlen
    | f :: g :: rest =>
      have hfe : buildManifestEntries (f :: g :: rest) =
          ((f :: g :: rest).filter (fun f => f.summary.status = some "SUCCESS")).map
            (fun f => { url := f.s3Path, mandatory := true }) :=
        buildManifestEntries_eq_filter _
      constructor
      · intro hnone
        have hbe : buildManifestEntries (f :: g :: rest) = [] := by
          rw [hfe, hnone]; rfl
        constructor
        · simp [perCategoryCopy, copyWithManifest, hbe]
        · simp [perCategoryCopy, copyWithManifest, hbe]
      · intro hsome
        have hbe : (buildManifestEntries (f :: g :: rest)).isEmpty = false := by
          rw [hfe]
          cases hfil : (f :: g :: rest).filter (fun f => f.summary.status = some "SUCCESS") with
          | nil => exact absurd hfil hsome
          | cons a l => simp
        show putsOf (copyWithManifest env (f :: g :: rest) bucket rt).2 = _
        simp only [copyWithManifest, hbe]
        cases hput : env.putOk (manifestKey rt env.ts) with
        | false => simp [hput, putsOf, hfe]
        | true =>
          cases hdel : env.deleteOk (manifestKey rt env.ts) with
          | false => simp [hput, hdel, putsOf, hfe]
          | true => simp [hput, hdel, putsOf, hfe]

/-- C2 witness: the `sales` group of `[salesOk, salesZero]` (two
candidates, both `SUCCESS`, one with `valid_rows = 0`) produces one
manifest holding both, in arrival order, mandatory. -/
theorem c2_manifest_building_witness :
    putsOf (perCategoryCopy envAllOk "bkt" ReportType.sales [salesOk, salesZero]).2 =
      [(manifestKey ReportType.sales "20240101",
        ([salesOk, salesZero].filter (fun f => f.summary.status = some "SUCCESS")).map
          (fun f => { url := f.s3Path, mandatory := true }))] :=
  ((c2_manifest_building envAllOk "bkt" ReportType.sales
      [salesOk, salesZero]).2 (by decide)).2 (by decide)

/-! ## C3 — per-category isolation and completeness of the orchestrator -/

theorem keys_addToGroups (gs : List (ReportType × List FileBatch)) (b : FileBatch) :
    (addToGroups gs b).map Prod.fst =
      if b.reportType ∈ gs.map Prod.fst then gs.map Prod.fst
      else gs.map Prod.fst ++ [b.reportType] := by
  induction gs with
  | nil => simp [addToGroups]
  | cons g rest ih =>
    obtain ⟨rt0, fs0⟩ := g
    by_cases h : rt0 = b.reportType
    · subst h
      simp [addToGroups]
    · simp only [addToGroups, if_neg h, List.map_cons]
      rw [ih]
      by_cases hmem : b.reportType ∈ rest.map Prod.fst
      · simp [hmem]
      · simp [hmem, Ne.symm h]

theorem nodup_keys_addToGroups (gs : List (ReportType × List FileBatch))
    (b : FileBatch) (h : (gs.map Prod.fst).Nodup) :
    ((addToGroups gs b).map Prod.fst).Nodup := by
  rw [keys_addToGroups]
  by_cases hmem : b.reportType ∈ gs.map Prod.fst
  · simpa [hmem] using h
  · simp only [hmem, if_neg]
    simp [List.nodup_append, h, hmem]

theorem nodup_keys_groupFilesByType (batches : List FileBatch) :
    ((groupFilesByType batches).map Prod.fst).Nodup := by
  have general : ∀ (bs : List FileBatch) (gs : List (ReportType × List FileBatch)),
      (gs.map Prod.fst).Nodup → ((bs.foldl addToGroups gs).map Prod.fst).Nodup := by
    intro bs
    induction bs with
    | nil => intro gs h; simpa using h
    | cons b rest ih =>
      intro gs h
      exact ih (addToGroups gs b) (nodup_keys_addToGroups gs b h)
  simpa [groupFilesByType] using general batches [] (by simp)

/-- In a keyed list with distinct keys, looking up a member's key finds
exactly that member's image. -/
theorem resultsGet_keyed_map (gs : List (ReportType × List FileBatch))
    (rt : ReportType) (files : List FileBatch)
    (F : ReportType → List FileBatch → CopyResult)
    (hnd : (gs.map Prod.fst).Nodup) (hmem : (rt, files) ∈ gs) :
    resultsGet (gs.map (fun g => (g.1, F g.1 g.2))) rt = some (F rt files) := by
  induction gs with
  | nil => simp at hmem
  | cons g rest ih =>
    obtain ⟨rt0, fs0⟩ := g
    by_cases h : rt0 = rt
    · subst h
      have hfs : fs0 = files := by
        rcases List.mem_cons.mp hmem with heq | htl
        · exact ((Prod.ext_iff.mp heq).2).symm
        · exfalso
          have hin : rt0 ∈ rest.map Prod.fst :=
            List.mem_map.mpr ⟨(rt0, files), htl, rfl⟩
          exact (List.nodup_cons.mp hnd).1 hin
      subst hfs
      simp [resultsGet, List.find?_cons]
    · have hstep : resultsGet (((rt0, fs0) :: rest).map
          (fun g => (g.1, F g.1 g.2))) rt =
          resultsGet (rest.map (fun g => (g.1, F g.1 g.2))) rt := by
        simp [resultsGet, List.find?_cons, h]
      rw [hstep]
      apply ih (List.nodup_cons.mp hnd).2
      rcases List.mem_cons.mp hmem with heq | htl
      · exact absurd ((Prod.ext_iff.mp heq).1).symm h
      · exact htl

theorem events_infix (env : CopyEnv) (bucket : String)
    (gs : List (ReportType × List FileBatch)) (rt : ReportType)
    (files : List FileBatch) (hmem : (rt, files) ∈ gs) :
    List.IsInfix ((perCategoryCopy env bucket rt files).2)
      (gs.foldr (fun g acc => (perCategoryCopy env bucket g.1 g.2).2 ++ acc) []) := by
  induction gs with
  | nil => simp at hmem
  | cons g rest ih =>
    rcases List.mem_cons.mp hmem with heq | htl
    · subst heq
      exact (List.prefix_append _ _).isInfix
    · exact (ih htl).trans (List.suffix_append _ _).isInfix

/-- C3: `batch_copy_with_manifest` always returns the `SUCCESS` envelope
(no failure escapes as an exception), with one result entry per grouped
category; each category's entry is exactly the outcome of running that
category's own candidates against the environment — so a load failure in
one category surfaces as that category's `FAILED` entry and cannot change
any sibling entry — and every category's own external calls appear
contiguously in the issued trace (its load was executed). -/
theorem c3_failure_isolation (env : CopyEnv) (batches : List FileBatch)
    (bucket : String) :
    (batchCopyWithManifest env batches bucket).1.status = "SUCCESS"
    ∧ (batchCopyWithManifest env batches bucket).1.results.length =
        (groupFilesByType batches).length
    ∧ (∀ rt files, (rt, files) ∈ groupFilesByType batches →
        resultsGet (batchCopyWithManifest env batches bucket).1.results rt =
          some (perCategoryCopy env bucket rt files).1)
    ∧ (∀ rt files, (rt, files) ∈ groupFilesByType batches →
        List.IsInfix ((perCategoryCopy env bucket rt files).2)
          (batchCopyWithManifest env batches bucket).2) := by
  refine ⟨rfl, by simp [batchCopyWithManifest], ?_, ?_⟩
  · intro rt files hmem
    show resultsGet (((groupFilesByType batches).map
        (fun g => (g.1, perCategoryCopy env bucket g.1 g.2))).map
        (fun p => (p.1, p.2.1))) rt = _
    rw [List.map_map]
    exact resultsGet_keyed_map (groupFilesByType batches) rt files
      (fun a b => (perCategoryCopy env bucket a b).1)
      (nodup_keys_groupFilesByType batches) hmem
  · intro rt files hmem
    show List.IsInfix _ (((groupFilesByType batches).map
        (fun g => (g.1, perCategoryCopy env bucket g.1 g.2))).foldr
        (fun p acc => p.2.2 ++ acc) [])
    rw [List.foldr_map]
    exact events_infix env bucket (groupFilesByType batches) rt files hmem

/-! ## C10 — `clear_cache` clears only the raw rules cache -/

/-- After any `execute_rules` call, the memoised sorted rule list for that
report type is present. -/
theorem lru_populated (store : RuleStore) (st : ValidatorState) (ff : Bool)
    (oracle : EvalOracle) (rt : String) (d : RecordData) :
    ∃ sorted, cacheGet (validatorStateAfter store st ff oracle rt d).lruCache rt =
      some sorted := by
  unfold validatorStateAfter executeRulesS getRulesOptimizedS
  cases hc : cacheGet st.lruCache rt with
  | some sorted => exact ⟨sorted, by simp [hc]⟩
  | none =>
    have hfind : st.lruCache.find? (fun p => p.1 = rt) = none := by
      unfold cacheGet at hc
      cases hf : st.lruCache.find? (fun p => p.1 = rt) with
      | none => rfl
      | some p => rw [hf] at hc; simp at hc
    refine ⟨sortRulesByPriority (getRulesS store st rt).1, ?_⟩
    have hlru : (getRulesS store st rt).2.1.lruCache = st.lruCache := by
      unfold getRulesS
      cases cacheGet st.rulesCache rt <;> rfl
    simp only [hc]
    unfold cacheGet
    rw [List.find?_append, hlru, hfind]
    simp

/-- C10: `clear_cache` empties only `_rules_cache`; the compiled-expression
cache and the lru-memoised sorted rule lists survive.  Consequently, for a
report type that has been evaluated once, an `execute_rules` call after
the clear returns the same violations as it would have without the clear
and performs no rule-store load. -/
theorem c10_clear_cache_frame (store : RuleStore) (st0 : ValidatorState)
    (ff ff2 : Bool) (oracle oracle2 : EvalOracle) (rt : String)
    (d1 d2 : RecordData) :
    (clearCacheS (validatorStateAfter store st0 ff oracle rt d1)).rulesCache = []
    ∧ (clearCacheS (validatorStateAfter store st0 ff oracle rt d1)).lruCache =
        (validatorStateAfter store st0 ff oracle rt d1).lruCache
    ∧ (clearCacheS (validatorStateAfter store st0 ff oracle rt d1)).compiled =
        (validatorStateAfter store st0 ff oracle rt d1).compiled
    ∧ (executeRulesS store (clearCacheS (validatorStateAfter store st0 ff oracle rt d1))
          ff2 oracle2 rt d2).1 =
        (executeRulesS store (validatorStateAfter store st0 ff oracle rt d1)
          ff2 oracle2 rt d2).1
    ∧ (executeRulesS store (clearCacheS (validatorStateAfter store st0 ff oracle rt d1))
          ff2 oracle2 rt d2).2.2 = 0 := by
  obtain ⟨sorted, hs⟩ := lru_populated store st0 ff oracle rt d1
  have hs2 : cacheGet (clearCacheS (validatorStateAfter store st0 ff oracle rt d1)).lruCache rt =
      some sorted := hs
  refine ⟨rfl, rfl, rfl, ?_, ?_⟩
  · simp [executeRulesS, getRulesOptimizedS, hs, hs2, clearCacheS]
  · simp [executeRulesS, getRulesOptimizedS, hs2]

/-! ## C8 — a parseable RANGE rule on a record missing the field -/

/-- C8: for every RANGE rule whose expression the compiler's regex parses,
evaluating any record in which the referenced field is absent raises
nothing and reports nothing: the compiled fast path returns plain `False`
(no exception — `some false`, not `none`), and `execute_rules` on that
rule yields no violation. -/
theorem c8_missing_field_never_fires (r : Rule) (data : RecordData)
    (fld : String) (op : CmpOp) (v : String) (oracle : EvalOracle)
    (ht : r.validationType = some "RANGE")
    (hp : pyRangeMatch r.ruleExpression = some (fld, op, v))
    (hm : recordGet data fld = none) :
    execCompiledRangeRule fld op (pyConvertToNumeric (PyVal.str (pyStrip v))) data =
      some false
    ∧ executeRules true oracle [r] data = [] := by
  constructor
  · simp [execCompiledRangeRule, hm]
  · have hsort : sortRulesByPriority [r] = [r] := rfl
    have hcomp : compileAllInto [] [r] =
        [(r.ruleId, Compiled.range fld op (pyConvertToNumeric (PyVal.str (pyStrip v))))] := by
      simp [compileAllInto, compiledLookup, precompileRule, ht, hp]
    show execRulesLoop true oracle (compileAllInto [] (sortRulesByPriority [r]))
      data (sortRulesByPriority [r]) = []
    rw [hsort, hcomp]
    simp [execRulesLoop, evalRuleStep, compiledLookup, execCompiledRule,
      execCompiledRangeRule, hm]

/-- C8 witness: the ERROR demo rule (`amount > 100`) against a record with
no `amount` field. -/
theorem c8_missing_field_never_fires_witness :
    execCompiledRangeRule "amount" CmpOp.gt
        (pyConvertToNumeric (PyVal.str (pyStrip "100"))) [("other", PyVal.int 1)] =
      some false
    ∧ executeRules true nullOracle [demoErrorRule] [("other", PyVal.int 1)] = [] :=
  c8_missing_field_never_fires demoErrorRule [("other", PyVal.int 1)]
    "amount" CmpOp.gt "100" nullOracle rfl rfl rfl

/-! ## C1 — the fast-fail invariant -/

theorem mkViolation_severity_critical (r : Rule) (d : RecordData) :
    (mkViolation r d).severity = "CRITICAL" ↔ r.severity = some "CRITICAL" := by
  unfold mkViolation
  cases hs : r.severity with
  | none => simp
  | some s => simp

theorem rulePriority_eq_zero (r : Rule) :
    rulePriority r = 0 ↔ r.severity = some "CRITICAL" := by
  unfold rulePriority
  cases hs : r.severity with
  | none => simp
  | some s =>
    by_cases h1 : s = "CRITICAL"
    · simp [h1]
    · by_cases h2 : s = "ERROR"
      · simp [h1, h2]
      · by_cases h3 : s = "WARNING"
        · simp [h1, h2, h3]
        · by_cases h4 : s = "INFO" <;> simp [h1, h2, h3, h4]

/-- Every violation the loop emits comes from some rule of the list. -/
theorem execRulesLoop_mem (ff : Bool) (oracle : EvalOracle)
    (compiled : CompiledMap) (data : RecordData) :
    ∀ (rules : List Rule) (v : Violation),
      v ∈ execRulesLoop ff oracle compiled data rules →
      ∃ r ∈ rules, v = mkViolation r data := by
  intro rules
  induction rules with
  | nil => intro v hv; simp [execRulesLoop] at hv
  | cons r rest ih =>
    intro v hv
    unfold execRulesLoop at hv
    by_cases hstep : evalRuleStep oracle compiled r data = some true
    · rw [if_pos hstep] at hv
      by_cases hcrit : (ff && r.severity = some "CRITICAL") = true
      · rw [if_pos hcrit] at hv
        rcases List.mem_singleton.mp hv with rfl
        exact ⟨r, List.mem_cons_self r rest, rfl⟩
      · rw [if_neg hcrit] at hv
        rcases List.mem_cons.mp hv with rfl | htl
        · exact ⟨r, List.mem_cons_self r rest, rfl⟩
        · obtain ⟨r2, hr2, hveq⟩ := ih v htl
          exact ⟨r2, List.mem_cons_of_mem r hr2, hveq⟩
    · rw [if_neg hstep] at hv
      obtain ⟨r2, hr2, hveq⟩ := ih v hv
      exact ⟨r2, List.mem_cons_of_mem r hr2, hveq⟩

/-- Over a severity-sorted rule list with fast-fail on, a CRITICAL
violation in the output forces the output to be exactly that one
violation: CRITICAL rules sort first, and the first firing CRITICAL rule
breaks the loop before any other rule can both fire and be appended. -/
theorem execRulesLoop_critical_singleton (oracle : EvalOracle)
    (compiled : CompiledMap) (data : RecordData) :
    ∀ (rules : List Rule), rules.Sorted ruleLE →
      ∀ v ∈ execRulesLoop true oracle compiled data rules,
        v.severity = "CRITICAL" →
        execRulesLoop true oracle compiled data rules = [v] := by
  intro rules
  induction rules with
  | nil => intro _ v hv; simp [execRulesLoop] at hv
  | cons r rest ih =>
    intro hsorted v hv hcrit
    have hsortedTail := (List.sorted_cons.mp hsorted).2
    have hrel := (List.sorted_cons.mp hsorted).1
    unfold execRulesLoop at hv ⊢
    by_cases hstep : evalRuleStep oracle compiled r data = some true
    · rw [if_pos hstep] at hv ⊢
      by_cases hc : (true && r.severity = some "CRITICAL") = true
      · rw [if_pos hc] at hv ⊢
        rcases List.mem_singleton.mp hv with rfl
        rfl
      · rw [if_neg hc] at hv ⊢
        have hrc : ¬ r.severity = some "CRITICAL" := by
          intro h
          exact hc (by simp [h])
        rcases List.mem_cons.mp hv with rfl | htl
        · exact absurd ((mkViolation_severity_critical r data).mp hcrit) hrc
        · exfalso
          obtain ⟨r2, hr2, hveq⟩ := execRulesLoop_mem true oracle compiled data rest v htl
          have hr2crit : r2.severity = some "CRITICAL" := by
            rw [hveq] at hcrit
            exact (mkViolation_severity_critical r2 data).mp hcrit
          have hle : rulePriority r ≤ rulePriority r2 := hrel r2 hr2
          have hz : rulePriority r2 = 0 := (rulePriority_eq_zero r2).mpr hr2crit
          have hr0 : rulePriority r = 0 := by omega
          exact hrc ((rulePriority_eq_zero r).mp hr0)
    · rw [if_neg hstep] at hv ⊢
      exact ih hsortedTail v hv hcrit

/-- C1: with fast-fail enabled (the constructor's default), whenever the
result of `execute_rules` contains a violation from a CRITICAL rule, the
result contains no violation of ERROR, WARNING or INFO severity: the
severity sort runs CRITICAL rules first and the firing CRITICAL rule
stops evaluation of everything after it. -/
theorem c1_fast_fail (rules : List Rule) (data : RecordData)
    (oracle : EvalOracle)
    (h : (executeRules true oracle rules data).any
      (fun v => v.severity = "CRITICAL") = true) :
    (executeRules true oracle rules data).all
      (fun v => !(v.severity = "ERROR" || v.severity = "WARNING"
        || v.severity = "INFO")) = true := by
  obtain ⟨v, hv, hcrit⟩ := List.any_eq_true.mp h
  have hcrit2 : v.severity = "CRITICAL" := by simpa using hcrit
  have hsingle : executeRules true oracle rules data = [v] := by
    unfold executeRules at hv ⊢
    exact execRulesLoop_critical_singleton oracle
      (compileAllInto [] (sortRulesByPriority rules)) data
      (sortRulesByPriority rules)
      (List.sorted_insertionSort ruleLE rules) v hv hcrit2
  rw [hsingle]
  simp [hcrit2]

/-- C1 witness: an ERROR rule and a CRITICAL rule on the same record; the
CRITICAL one fires, and the result carries no lower-severity violation. -/
theorem c1_fast_fail_witness :
    (executeRules true nullOracle [demoErrorRule, demoCriticalRule] demoRecord).all
      (fun v => !(v.severity = "ERROR" || v.severity = "WARNING"
        || v.severity = "INFO")) = true :=
  c1_fast_fail [demoErrorRule, demoCriticalRule] demoRecord nullOracle (by decide)

/-! ## C5 — the exact name sets the evaluation contexts expose -/

theorem ctxKeys_base (data : RecordData) :
    ctxKeys (data.map (fun p => (p.1, contextEntry p.1 p.2))) = recordKeys data := by
  unfold ctxKeys recordKeys
  rw [List.map_map]
  rfl

theorem ctxKeys_append_entry (c : Ctx) (k : String) (v : CtxVal) :
    ctxKeys (c ++ [(k, v)]) = ctxKeys c ++ [k] := by
  unfold ctxKeys
  rw [List.map_append]
  rfl

theorem ctxHasKey_iff (c : Ctx) (k : String) :
    ctxHasKey c k = true ↔ k ∈ ctxKeys c := by
  unfold ctxHasKey
  exact List.elem_iff

theorem ctxKeys_createSafeContext (data : RecordData) :
    ctxKeys (createSafeContext data) =
      recordKeys data
        ++ (if "datetime" ∈ recordKeys data then [] else ["datetime"])
        ++ (if "date" ∈ recordKeys data then [] else ["date_class"]) := by
  unfold createSafeContext
  have hbase := ctxKeys_base data
  by_cases hdt : "datetime" ∈ recordKeys data
  · have h1 : ctxHasKey (data.map (fun p => (p.1, contextEntry p.1 p.2))) "datetime" = true := by
      rw [ctxHasKey_iff, hbase]
      exact hdt
    by_cases hdate : "date" ∈ recordKeys data
    · have h2 : ctxHasKey (data.map (fun p => (p.1, contextEntry p.1 p.2))) "date" = true := by
        rw [ctxHasKey_iff, hbase]
        exact hdate
      simp [h1, h2, hbase, hdt, hdate]
    · have h2 : ctxHasKey (data.map (fun p => (p.1, contextEntry p.1 p.2))) "date" = false := by
        rw [Bool.eq_false_iff]
        intro hc
        exact hdate (hbase ▸ (ctxHasKey_iff _ _).mp hc)
      simp [h1, h2, hbase, hdt, hdate, ctxKeys_append_entry]
  · have h1 : ctxHasKey (data.map (fun p => (p.1, contextEntry p.1 p.2))) "datetime" = false := by
      rw [Bool.eq_false_iff]
      intro hc
      exact hdt (hbase ▸ (ctxHasKey_iff _ _).mp hc)
    have hk2 : ctxKeys (data.map (fun p => (p.1, contextEntry p.1 p.2))
        ++ [("datetime", CtxVal.classDatetime)]) = recordKeys data ++ ["datetime"] := by
      rw [ctxKeys_append_entry, hbase]
    by_cases hdate : "date" ∈ recordKeys data
    · have h2 : ctxHasKey (data.map (fun p => (p.1, contextEntry p.1 p.2))
          ++ [("datetime", CtxVal.classDatetime)]) "date" = true := by
        rw [ctxHasKey_iff, hk2]
        exact List.mem_append.mpr (Or.inl hdate)
      simp [h1, h2, hk2, hdt, hdate]
    · have h2 : ctxHasKey (data.map (fun p => (p.1, contextEntry p.1 p.2))
          ++ [("datetime", CtxVal.classDatetime)]) "date" = false := by
        rw [Bool.eq_false_iff]
        intro hc
        have hmem := (ctxHasKey_iff _ _).mp hc
        rw [hk2] at hmem
        rcases List.mem_append.mp hmem with hin | hin
        · exact hdate hin
        · rw [List.mem_singleton] at hin
          exact (by decide : ("date" : String) ≠ "datetime") hin
      simp only [h1, h2, hdt, hdate, Bool.false_eq_true, if_false, ite_false,
        List.append_assoc]
      unfold ctxKeys at hbase ⊢
      rw [List.map_append, hbase]
      rfl

theorem mem_ctxKeys_dictSet (d : Ctx) (k : String) (v : CtxVal) (n : String) :
    n ∈ ctxKeys (dictSet d k v) ↔ n ∈ ctxKeys d ∨ n = k := by
  unfold dictSet
  by_cases h : ctxHasKey d k = true
  · rw [if_pos h]
    have hkeys : ctxKeys (d.map (fun p => if p.1 = k then (k, v) else p)) = ctxKeys d := by
      unfold ctxKeys
      rw [List.map_map]
      apply List.map_congr_left
      intro p _
      by_cases hp : p.1 = k
      · simp [hp]
      · simp [hp]
    rw [hkeys]
    have hmem : k ∈ ctxKeys d := by
      unfold ctxHasKey at h
      simpa using h
    constructor
    · exact Or.inl
    · rintro (h1 | rfl)
      · exact h1
      · exact hmem
  · rw [if_neg h]
    unfold ctxKeys
    rw [List.map_append]
    simp [ctxKeys]

theorem mem_ctxKeys_fnFold (names : List String) (c : Ctx) (n : String) :
    n ∈ ctxKeys (names.foldl (fun acc nm => dictSet acc nm (CtxVal.fn nm)) c) ↔
      n ∈ ctxKeys c ∨ n ∈ names := by
  induction names generalizing c with
  | nil => simp
  | cons nm rest ih =>
    rw [List.foldl_cons, ih, mem_ctxKeys_dictSet]
    simp only [List.mem_cons]
    tauto

/-- C5 (amended): the evaluation context is not the claimed exact
allow-list.  For every record, the safe context binds the coerced record
fields plus the `datetime` class (unless a `datetime` field exists) and
the `date` class under `date_class` (unless a `date` field exists); a
COMPARISON rule additionally reaches exactly the builtins
`abs, min, max, round, len, sum`; an EXPRESSION rule instead reaches the
context merged with `abs, len, str, int, float, min, max, round` — so
`sum` is absent there and `str`, `int`, `float` are present, and rule text
can reach the `datetime`/`date` class objects in both modes. -/
theorem c5_exposed_names (data : RecordData) :
    ctxKeys (createSafeContext data) =
      recordKeys data
        ++ (if "datetime" ∈ recordKeys data then [] else ["datetime"])
        ++ (if "date" ∈ recordKeys data then [] else ["date_class"])
    ∧ comparisonExposedNames data =
        ctxKeys (createSafeContext data) ++ ["abs", "min", "max", "round", "len", "sum"]
    ∧ (∀ n, n ∈ expressionExposedNames data ↔
        n ∈ ctxKeys (createSafeContext data)
        ∨ n ∈ ["abs", "len", "str", "int", "float", "min", "max", "round"]) := by
  refine ⟨ctxKeys_createSafeContext data, rfl, ?_⟩
  intro n
  exact mem_ctxKeys_fnFold expressionUpdateNames (createSafeContext data) n

/-! ## C6 — coercion precedence, character by character -/

theorem strHasChar_iff (s : String) (c : Char) :
    strHasChar s c = true ↔ c ∈ s.toList := by
  unfold strHasChar
  exact List.elem_iff

theorem not_strHasChar (s : String) (c : Char) (h : c ∉ s.toList) :
    strHasChar s c = false := by
  rw [Bool.eq_false_iff]
  intro hc
  exact h ((strHasChar_iff s c).mp hc)

theorem toLower_eq_self_of_isDigit (c : Char) (h : c.isDigit = true) :
    c.toLower = c := by
  simp [Char.isDigit] at h
  have h2 : c.val.toNat ≤ 57 := UInt32.toNat_le_of_le (by norm_num) h.2
  simp [Char.toLower]
  intro h65 _
  exfalso
  have h65x : 65 ≤ c.val.toNat := h65
  omega

theorem intDigitsOk_chars :
    ∀ cs, intDigitsOk cs = true → ∀ c ∈ cs, c.isDigit = true ∨ c = '_' := by
  intro cs
  induction cs using intDigitsOk.induct with
  | case1 => simp
  | case2 c =>
    intro h d hd
    rw [List.mem_singleton] at hd
    subst hd
    exact Or.inl (by simpa [intDigitsOk] using h)
  | case3 c c2 rest hdig ih =>
    intro h d hd
    rw [intDigitsOk, if_pos hdig] at h
    rcases List.mem_cons.mp hd with rfl | htl
    · exact Or.inl hdig
    · exact ih h d htl
  | case4 c c2 rest hdig ih =>
    intro h d hd
    rw [intDigitsOk, if_neg hdig] at h
    simp only [Bool.and_eq_true, decide_eq_true_eq] at h
    obtain ⟨⟨hc, hc2⟩, hrest⟩ := h
    rcases List.mem_cons.mp hd with rfl | htl
    · exact Or.inr hc
    · rcases List.mem_cons.mp htl with rfl | htl2
      · exact Or.inl hc2
      · exact ih hrest d htl2

theorem groupOk_chars (cs : List Char) (h : groupOk cs = true) :
    ∀ c ∈ cs, c.isDigit = true ∨ c = '_' := by
  unfold groupOk at h
  cases cs with
  | nil => simp at h
  | cons a tl =>
    simp only [Bool.and_eq_true] at h
    exact intDigitsOk_chars (a :: tl) h.2

theorem signSplit_sub (cs : List Char) :
    ∀ c ∈ cs, c ∈ (signSplit cs).2 ∨ c = '+' ∨ c = '-' := by
  intro c hc
  unfold signSplit
  by_cases h1 : cs.head? = some '+'
  · rw [if_pos h1]
    cases cs with
    | nil => simp at hc
    | cons a tl =>
      simp only [List.head?_cons, Option.some.injEq] at h1
      subst h1
      rcases List.mem_cons.mp hc with rfl | htl
      · exact Or.inr (Or.inl rfl)
      · exact Or.inl htl
  · rw [if_neg h1]
    by_cases h2 : cs.head? = some '-'
    · rw [if_pos h2]
      cases cs with
      | nil => simp at hc
      | cons a tl =>
        simp only [List.head?_cons, Option.some.injEq] at h2
        subst h2
        rcases List.mem_cons.mp hc with rfl | htl
        · exact Or.inr (Or.inr rfl)
        · exact Or.inl htl
    · rw [if_neg h2]
      exact Or.inl hc

theorem eq_cons_of_headq (l : List Char) (a : Char) (h : l.head? = some a) :
    l = a :: l.tail := by
  cases l with
  | nil => simp at h
  | cons b tl =>
    simp only [List.head?_cons, Option.some.injEq] at h
    rw [h]
    rfl

theorem takeDigitRun_append (cs : List Char) :
    (takeDigitRun cs).1 ++ (takeDigitRun cs).2 = cs := by
  unfold takeDigitRun
  exact List.takeWhile_append_dropWhile isRunChar cs

theorem mem_takeDigitRun_fst (cs : List Char) (c : Char)
    (h : c ∈ (takeDigitRun cs).1) : c.isDigit = true ∨ c = '_' := by
  have := List.mem_takeWhile_imp h
  unfold isRunChar at this
  simpa using this

theorem pfRest2_chars (t : String) (c : Char) (hc : c ∈ pfRest2 t)
    (hr3 : (pfRest3 t).isEmpty = true) :
    c.isDigit = true ∨ c = '_' ∨ c = '+' ∨ c = '-' ∨ c = 'e' ∨ c = 'E' := by
  cases hexp : pfHasExp t with
  | false =>
    exfalso
    have heq : pfRest3 t = pfRest2 t := by
      unfold pfRest3
      simp [hexp]
    rw [heq, List.isEmpty_iff] at hr3
    rw [hr3] at hc
    simp at hc
  | true =>
    have hhead : (pfRest2 t).head? = some 'e' ∨ (pfRest2 t).head? = some 'E' := by
      unfold pfHasExp at hexp
      simpa using hexp
    have hcons : ∃ ec, (ec = 'e' ∨ ec = 'E') ∧ pfRest2 t = ec :: (pfRest2 t).tail := by
      rcases hhead with h | h
      · exact ⟨'e', Or.inl rfl, eq_cons_of_headq _ _ h⟩
      · exact ⟨'E', Or.inr rfl, eq_cons_of_headq _ _ h⟩
    obtain ⟨ec, hec, hsplit⟩ := hcons
    rw [hsplit] at hc
    rcases List.mem_cons.mp hc with rfl | htl
    · rcases hec with rfl | rfl
      · exact Or.inr (Or.inr (Or.inr (Or.inr (Or.inl rfl))))
      · exact Or.inr (Or.inr (Or.inr (Or.inr (Or.inr rfl))))
    · rcases signSplit_sub _ c htl with hin | rfl | rfl
      · have hsplit2 : (signSplit (pfRest2 t).tail).2 = pfDs t ++ pfRest3 t := by
          have hds : pfDs t = (takeDigitRun (signSplit (pfRest2 t).tail).2).1 := by
            unfold pfDs
            simp [hexp]
          have hr3e : pfRest3 t = (takeDigitRun (signSplit (pfRest2 t).tail).2).2 := by
            unfold pfRest3
            simp [hexp]
          rw [hds, hr3e, takeDigitRun_append]
        rw [hsplit2] at hin
        rcases List.mem_append.mp hin with h1 | h2
        · have hds : pfDs t = (takeDigitRun (signSplit (pfRest2 t).tail).2).1 := by
            unfold pfDs
            simp [hexp]
          rw [hds] at h1
          rcases mem_takeDigitRun_fst _ c h1 with hd | hu
          · exact Or.inl hd
          · exact Or.inr (Or.inl hu)
        · exfalso
          rw [List.isEmpty_iff] at hr3
          rw [hr3] at h2
          simp at h2
      · exact Or.inr (Or.inr (Or.inl rfl))
      · exact Or.inr (Or.inr (Or.inr (Or.inl rfl)))

theorem pfRest1_chars (t : String) (c : Char) (hc : c ∈ pfRest1 t)
    (hr3 : (pfRest3 t).isEmpty = true) :
    c.isDigit = true ∨ c = '_' ∨ c = '+' ∨ c = '-' ∨ c = '.'
      ∨ c = 'e' ∨ c = 'E' := by
  cases hdot : pfHasDot t with
  | false =>
    have heq : pfRest2 t = pfRest1 t := by
      unfold pfRest2
      simp [hdot]
    rw [← heq] at hc
    rcases pfRest2_chars t c hc hr3 with h | h | h | h | h | h
    · exact Or.inl h
    · exact Or.inr (Or.inl h)
    · exact Or.inr (Or.inr (Or.inl h))
    · exact Or.inr (Or.inr (Or.inr (Or.inl h)))
    · exact Or.inr (Or.inr (Or.inr (Or.inr (Or.inr (Or.inl h)))))
    · exact Or.inr (Or.inr (Or.inr (Or.inr (Or.inr (Or.inr h)))))
  | true =>
    have hsplit : pfRest1 t = '.' :: (pfRest1 t).tail := by
      unfold pfHasDot at hdot
      exact eq_cons_of_headq _ _ (by simpa using hdot)
    rw [hsplit] at hc
    rcases List.mem_cons.mp hc with rfl | htl
    · exact Or.inr (Or.inr (Or.inr (Or.inr (Or.inl rfl))))
    · have hsplit2 : (pfRest1 t).tail = pfFp t ++ pfRest2 t := by
        have hfp : pfFp t = (takeDigitRun (pfRest1 t).tail).1 := by
          unfold pfFp
          simp [hdot]
        have hr2 : pfRest2 t = (takeDigitRun (pfRest1 t).tail).2 := by
          unfold pfRest2
          simp [hdot]
        rw [hfp, hr2, takeDigitRun_append]
      rw [hsplit2] at htl
      rcases List.mem_append.mp htl with h1 | h2
      · rcases mem_takeDigitRun_fst _ c (by
          have hfp : pfFp t = (takeDigitRun (pfRest1 t).tail).1 := by
            unfold pfFp
            simp [hdot]
          rw [← hfp]
          exact h1) with hd | hu
        · exact Or.inl hd
        · exact Or.inr (Or.inl hu)
      · rcases pfRest2_chars t c h2 hr3 with h | h | h | h | h | h
        · exact Or.inl h
        · exact Or.inr (Or.inl h)
        · exact Or.inr (Or.inr (Or.inl h))
        · exact Or.inr (Or.inr (Or.inr (Or.inl h)))
        · exact Or.inr (Or.inr (Or.inr (Or.inr (Or.inr (Or.inl h)))))
        · exact Or.inr (Or.inr (Or.inr (Or.inr (Or.inr (Or.inr h)))))

theorem pyFloat_rest3_empty (t : String) (q : ℚ) (h : pyFloat t = some q) :
    (pfRest3 t).isEmpty = true := by
  unfold pyFloat at h
  split at h
  case isTrue hcond =>
    simp only [Bool.and_eq_true] at hcond
    exact hcond.1.1.1.1
  case isFalse => simp at h

theorem pyFloat_chars (t : String) (q : ℚ) (h : pyFloat t = some q) :
    ∀ c ∈ t.toList, c.isDigit = true ∨ c = '_' ∨ c = '+' ∨ c = '-'
      ∨ c = '.' ∨ c = 'e' ∨ c = 'E' := by
  intro c hc
  have hr3 := pyFloat_rest3_empty t q h
  rcases signSplit_sub t.toList c hc with hin | rfl | rfl
  · have hsplit : (signSplit t.toList).2 = pfIp t ++ pfRest1 t := by
      unfold pfIp pfRest1 pfCs
      rw [takeDigitRun_append]
    rw [hsplit] at hin
    rcases List.mem_append.mp hin with h1 | h2
    · rcases mem_takeDigitRun_fst _ c h1 with hd | hu
      · exact Or.inl hd
      · exact Or.inr (Or.inl hu)
    · exact pfRest1_chars t c h2 hr3
  · exact Or.inr (Or.inr (Or.inl rfl))
  · exact Or.inr (Or.inr (Or.inr (Or.inl rfl)))

theorem pyInt_chars (t : String) (n : Int) (h : pyInt t = some n) :
    ∀ c ∈ t.toList, c.isDigit = true ∨ c = '_' ∨ c = '+' ∨ c = '-' := by
  intro c hc
  unfold pyInt at h
  by_cases hg : groupOk (signSplit t.toList).2 = true
  · rcases signSplit_sub t.toList c hc with hin | rfl | rfl
    · rcases groupOk_chars _ hg c hin with hd | hu
      · exact Or.inl hd
      · exact Or.inr (Or.inl hu)
    · exact Or.inr (Or.inr (Or.inl rfl))
    · exact Or.inr (Or.inr (Or.inr rfl))
  · rw [if_neg hg] at h
    simp at h

theorem pyLower_no_e (t : String)
    (hall : ∀ c ∈ t.toList, c.isDigit = true ∨ c = '_' ∨ c = '+' ∨ c = '-') :
    strHasChar (pyLower t) 'e' = false := by
  rw [Bool.eq_false_iff]
  intro hc
  have hmem : 'e' ∈ (pyLower t).toList := (strHasChar_iff _ _).mp hc
  have hmap : (pyLower t).toList = t.toList.map Char.toLower := rfl
  rw [hmap] at hmem
  obtain ⟨c, hcmem, hlow⟩ := List.mem_map.mp hmem
  rcases hall c hcmem with hd | rfl | rfl | rfl
  · rw [toLower_eq_self_of_isDigit c hd] at hlow
    subst hlow
    exact absurd hd (by decide)
  · exact absurd hlow (by decide)
  · exact absurd hlow (by decide)
  · exact absurd hlow (by decide)

/-- C6 (amended): coercion of strings is total and follows the code's
actual precedence — the timestamp branch is attempted only for strings
containing `'T'` or both `'-'` and `':'`; apart from it, a string parsing
as an integer becomes an integer (no dot/exponent character can occur in
it), a string with a dot or an `e`/`E` that parses as a float becomes a
float, a string failing every parse stays the stripped string, and a
string outside the guard never becomes a timestamp — in particular bare
ISO dates like `"2023-01-01"` stay strings even though the code's own
format list recognizes them (see the counterexample). -/
theorem c6_coercion_precedence :
    (∀ (s : String) (n : Int), pyInt (pyStrip s) = some n →
      pyConvertToNumeric (PyVal.str s) = PyVal.int n)
    ∧ (∀ (s : String) (q : ℚ),
        (strHasChar (pyStrip s) '.' || strHasChar (pyLower (pyStrip s)) 'e') = true →
        pyFloat (pyStrip s) = some q →
        pyConvertToNumeric (PyVal.str s) = PyVal.float q)
    ∧ (∀ (s : String) (d : PyDateTime), dateGuard (pyStrip s) = false →
        pyConvertToNumeric (PyVal.str s) ≠ PyVal.date d)
    ∧ (∀ s : String, dateGuard (pyStrip s) = false →
        pyInt (pyStrip s) = none → pyFloat (pyStrip s) = none →
        pyConvertToNumeric (PyVal.str s) = PyVal.str (pyStrip s)) := by
  refine ⟨?_, ?_, ?_, ?_⟩
  · intro s n h
    have hchars := pyInt_chars (pyStrip s) n h
    have hT : strHasChar (pyStrip s) 'T' = false := by
      apply not_strHasChar
      intro hmem
      rcases hchars 'T' hmem with hx | hx | hx | hx <;> exact absurd hx (by decide)
    have hColon : strHasChar (pyStrip s) ':' = false := by
      apply not_strHasChar
      intro hmem
      rcases hchars ':' hmem with hx | hx | hx | hx <;> exact absurd hx (by decide)
    have hDot : strHasChar (pyStrip s) '.' = false := by
      apply not_strHasChar
      intro hmem
      rcases hchars '.' hmem with hx | hx | hx | hx <;> exact absurd hx (by decide)
    have hguard : dateGuard (pyStrip s) = false := by
      unfold dateGuard
      rw [hT, hColon]
      simp
    have hLow := pyLower_no_e (pyStrip s) hchars
    unfold pyConvertToNumeric
    simp [hguard, hDot, hLow, h]
  · intro s q hor h
    have hchars := pyFloat_chars (pyStrip s) q h
    have hT : strHasChar (pyStrip s) 'T' = false := by
      apply not_strHasChar
      intro hmem
      rcases hchars 'T' hmem with hx | hx | hx | hx | hx | hx | hx <;>
        exact absurd hx (by decide)
    have hColon : strHasChar (pyStrip s) ':' = false := by
      apply not_strHasChar
      intro hmem
      rcases hchars ':' hmem with hx | hx | hx | hx | hx | hx | hx <;>
        exact absurd hx (by decide)
    have hguard : dateGuard (pyStrip s) = false := by
      unfold dateGuard
      rw [hT, hColon]
      simp
    have hbranch : (!(strHasChar (pyStrip s) '.')
        && !(strHasChar (pyLower (pyStrip s)) 'e')) = false := by
      rcases (Bool.or_eq_true _ _).mp hor with h1 | h1 <;> simp [h1]
    unfold pyConvertToNumeric
    simp only [hguard, Bool.false_eq_true, if_false, hbranch, h]
  · intro s d hguard
    unfold pyConvertToNumeric
    simp only [hguard, Bool.false_eq_true, if_false]
    split
    · cases hpi : pyInt (pyStrip s) <;> simp [hpi]
    · cases hpf : pyFloat (pyStrip s) <;> simp [hpf]
  · intro s hguard hInt hFloat
    unfold pyConvertToNumeric
    simp [hguard, hInt, hFloat]

end CleanElt
